import Mathlib

/-!
Verification of core algorithms of the gptb2o protocol-translation gateway.

The Go sources are shallowly embedded: Go strings become `List Char` (one
`Char` per byte; all strings relevant to the verified properties are ASCII),
Go maps become association lists, fallible operations return `Option`, and
the stateful streaming translators become explicit state-passing functions.
Each definition carries a doc comment naming the Go function it embeds.
-/

/-- Go strings are modelled as lists of characters (one entry per byte). -/
abbrev GoStr := List Char

/-- Convenience conversion from a Lean string literal to a `GoStr`. -/
def goStr (s : String) : GoStr := s.data

/-- Whitespace as recognised by Go's `unicode.IsSpace` on ASCII input
(space, tab, newline, vertical tab, form feed, carriage return). -/
def goIsSpace (c : Char) : Bool :=
  c = ' ' || c = '\t' || c = '\n' || c = Char.ofNat 11 || c = Char.ofNat 12 || c = '\r'

/-- Go `strings.TrimSpace` (ASCII whitespace). -/
def goTrimSpace (s : GoStr) : GoStr :=
  ((s.dropWhile goIsSpace).reverse.dropWhile goIsSpace).reverse

/-- Go `strings.ToLower` (ASCII case folding). -/
def goToLower (s : GoStr) : GoStr := s.map Char.toLower

/-- Go `strings.Index`: index of the first occurrence of `pat` in `s`,
`none` when absent (Go returns -1). `goIndex s [] = some 0` as in Go. -/
def goIndex : GoStr → GoStr → Option Nat
  | [], pat => if pat.isEmpty then some 0 else none
  | c :: rest, pat =>
    if pat.isPrefixOf (c :: rest) then some 0
    else (goIndex rest pat).map (· + 1)

/-- Go `strings.Contains`. -/
def goContains (s pat : GoStr) : Bool := (goIndex s pat).isSome

/-- Go `strings.EqualFold`, restricted to ASCII case folding. -/
def goEqualFold (a b : GoStr) : Bool := goToLower a == goToLower b

/-- `pat` occurs in `s` starting at position `i`. -/
def occursAt (s pat : GoStr) (i : Nat) : Prop := pat <+: s.drop i

/-- The body of the `for` loop of `findFirstClaudeStopSequence`: fold one
candidate stop sequence into the best match so far. -/
def findFirstStep (s : GoStr) (best : Option (Nat × GoStr)) (seq : GoStr) :
    Option (Nat × GoStr) :=
  if seq.isEmpty then best
  else
    match goIndex s seq with
    | none => best
    | some idx =>
      match best with
      | none => some (idx, seq)
      | some (bestIdx, bestSeq) =>
        if idx < bestIdx ∨ (idx = bestIdx ∧ bestSeq.length < seq.length) then
          some (idx, seq)
        else best

/-- openaihttp/claude.go `findFirstClaudeStopSequence`: earliest match among
the configured stop sequences, ties broken by the longer sequence. -/
def findFirstClaudeStopSequence (s : GoStr) (stopSequences : List GoStr) :
    Option (Nat × GoStr) :=
  if s.isEmpty || stopSequences.isEmpty then none
  else stopSequences.foldl (findFirstStep s) none

/-- openaihttp/claude.go `maxClaudeStopSequenceLen`. -/
def maxClaudeStopSequenceLen (stopSequences : List GoStr) : Nat :=
  stopSequences.foldl (fun maxLen s => if maxLen < s.length then s.length else maxLen) 0

/-- openaihttp/claude.go `estimateClaudeTokensFromChars`: ceiling of
`totalChars / 4`, with a floor of one token. -/
def estimateClaudeTokensFromChars (totalChars : Nat) : Nat :=
  let t0 := totalChars / 4
  let t1 := if totalChars % 4 ≠ 0 then t0 + 1 else t0
  if t1 = 0 then 1 else t1

/-- The SSE events written by `writeMessagesStream` (openaihttp/claude.go),
restricted to their observable payload. -/
inductive ClaudeEvent where
  | messageStart
  | blockStartText (index : Nat) (text : GoStr)
  | blockDeltaText (index : Nat) (text : GoStr)
  | blockStartToolUse (index : Nat) (id name : GoStr)
  | blockDeltaInputJson (index : Nat) (partialJson : GoStr)
  | blockStop (index : Nat)
  | messageDelta (stopReason : GoStr) (stopSequence : Option GoStr) (outputTokens : Nat)
  | messageStop
  deriving DecidableEq, Repr

/-- Configuration of one `writeMessagesStream` run: the normalized stop
sequences and the request's `max_tokens` (Go `int`). -/
structure ClaudeStreamConfig where
  stopSequences : List GoStr
  maxTokens : Int
  deriving Repr

/-- claude.go `writeMessagesStream`: `maxChars := 0; if maxTokens > 0 then
maxChars = maxTokens * 4`. -/
def ClaudeStreamConfig.maxChars (cfg : ClaudeStreamConfig) : Int :=
  if 0 < cfg.maxTokens then cfg.maxTokens * 4 else 0

/-- The `maxStopLen` local of `writeMessagesStream`. -/
def ClaudeStreamConfig.maxStopLen (cfg : ClaudeStreamConfig) : Nat :=
  maxClaudeStopSequenceLen cfg.stopSequences

/-- The mutable locals of `writeMessagesStream`, plus the list of events
written so far and whether `cancel` has been called. -/
structure ClaudeStreamState where
  events : List ClaudeEvent
  blockIndex : Nat
  textBlockOpen : Bool
  textBlockIndex : Nat
  hasToolUse : Bool
  emittedContentBlock : Bool
  stopReason : GoStr
  stopSequence : Option GoStr
  stopTriggered : Bool
  outputChars : Nat
  textBuf : GoStr
  cancelled : Bool
  deriving DecidableEq, Repr

/-- The text payload an event contributes to the client-visible output. -/
def deltaTextOf : ClaudeEvent → GoStr
  | ClaudeEvent.blockDeltaText _ t => t
  | _ => []

/-- The concatenation of all text deltas in an event list: the text a
protocol-B client receives. -/
def emittedTextOf (events : List ClaudeEvent) : GoStr :=
  (events.map deltaTextOf).flatten

/-- claude.go `startTextBlock` closure. -/
def startTextBlock (st : ClaudeStreamState) : ClaudeStreamState :=
  if st.textBlockOpen then st
  else
    { st with
      textBlockIndex := st.blockIndex
      blockIndex := st.blockIndex + 1
      events := st.events ++ [ClaudeEvent.blockStartText st.blockIndex []]
      textBlockOpen := true
      emittedContentBlock := true }

/-- claude.go `closeTextBlock` closure. -/
def closeTextBlock (st : ClaudeStreamState) : ClaudeStreamState :=
  if st.textBlockOpen then
    { st with
      events := st.events ++ [ClaudeEvent.blockStop st.textBlockIndex]
      textBlockOpen := false }
  else st

/-- claude.go `emitTextDelta` closure: opens the text block lazily, writes a
`content_block_delta` and counts the output characters. -/
def emitTextDelta (delta : GoStr) (st : ClaudeStreamState) : ClaudeStreamState :=
  if delta.isEmpty then st
  else
    let st1 := startTextBlock st
    { st1 with
      events := st1.events ++ [ClaudeEvent.blockDeltaText st1.textBlockIndex delta]
      outputChars := st1.outputChars + delta.length }

/-- One iteration of the `for` loop inside claude.go `emitTextSafe`: budget
check, stop-sequence check, then emission of the safe prefix keeping a
`maxStopLen - 1` tail. `Sum.inl` is the loop's `return`, `Sum.inr` is the
state with which the loop runs its next iteration. -/
def scanStep (cfg : ClaudeStreamConfig) (st : ClaudeStreamState) :
    ClaudeStreamState ⊕ ClaudeStreamState :=
  if st.stopTriggered then Sum.inl st
  else if 0 < cfg.maxChars ∧ cfg.maxChars < (st.outputChars : Int) + st.textBuf.length then
    let allowed : Int := cfg.maxChars - (st.outputChars : Int)
    let st1 := if 0 < allowed then emitTextDelta (st.textBuf.take allowed.toNat) st else st
    Sum.inl
      { st1 with
        textBuf := []
        stopReason := goStr "max_tokens"
        stopSequence := none
        stopTriggered := true
        cancelled := true }
  else
    match findFirstClaudeStopSequence st.textBuf cfg.stopSequences with
    | some (idx, seq) =>
      let st1 := if 0 < idx then emitTextDelta (st.textBuf.take idx) st else st
      Sum.inl
        { st1 with
          textBuf := []
          stopReason := goStr "stop_sequence"
          stopSequence := some seq
          stopTriggered := true
          cancelled := true }
    | none =>
      if cfg.maxStopLen ≤ 1 then
        if st.textBuf.isEmpty then Sum.inl st
        else Sum.inl { emitTextDelta st.textBuf st with textBuf := [] }
      else if st.textBuf.length ≤ cfg.maxStopLen - 1 then Sum.inl st
      else
        let safeLen := st.textBuf.length - (cfg.maxStopLen - 1)
        Sum.inr
          { emitTextDelta (st.textBuf.take safeLen) st with textBuf := st.textBuf.drop safeLen }

/-- Iterated `scanStep`. The structural `fuel` only bounds the iteration
count; every continuing iteration strictly shortens `textBuf`, so
`textBuf.length + 1` fuel always suffices (`scanLoop_eq` below recovers the
Go loop's exact recurrence). -/
def scanLoopF (cfg : ClaudeStreamConfig) : Nat → ClaudeStreamState → ClaudeStreamState
  | 0, st => st
  | fuel + 1, st =>
    match scanStep cfg st with
    | Sum.inl stop => stop
    | Sum.inr next => scanLoopF cfg fuel next

/-- claude.go `emitTextSafe`'s inner loop, with the always-sufficient fuel. -/
def scanLoop (cfg : ClaudeStreamConfig) (st : ClaudeStreamState) : ClaudeStreamState :=
  scanLoopF cfg (st.textBuf.length + 1) st

/-- claude.go `emitTextSafe` closure: append the increment to the pending
buffer and run the scan loop. -/
def emitTextSafe (cfg : ClaudeStreamConfig) (delta : GoStr) (st : ClaudeStreamState) :
    ClaudeStreamState :=
  if delta.isEmpty || st.stopTriggered then st
  else scanLoop cfg { st with textBuf := st.textBuf ++ delta }

/-- claude.go `flushAllTextBuf` closure: at stream end or before a tool-use
block, flush the pending tail, still honouring the output budget. -/
def flushAllTextBuf (cfg : ClaudeStreamConfig) (st : ClaudeStreamState) : ClaudeStreamState :=
  if st.textBuf.isEmpty || st.stopTriggered then { st with textBuf := [] }
  else if 0 < cfg.maxChars ∧ cfg.maxChars < (st.outputChars : Int) + st.textBuf.length then
    let allowed : Int := cfg.maxChars - (st.outputChars : Int)
    let st1 := if 0 < allowed then emitTextDelta (st.textBuf.take allowed.toNat) st else st
    { st1 with
      textBuf := []
      stopReason := goStr "max_tokens"
      stopSequence := none
      stopTriggered := true
      cancelled := true }
  else { emitTextDelta st.textBuf st with textBuf := [] }

/-- The receive loop of `writeMessagesStream` restricted to the text path
(the tool-call channel stays empty): each received message's content goes
through `emitTextSafe`; the loop stops once a stop condition triggered. -/
def processIncrements (cfg : ClaudeStreamConfig) :
    List GoStr → ClaudeStreamState → ClaudeStreamState
  | [], st => st
  | d :: rest, st =>
    let st1 := emitTextSafe cfg d st
    if st1.stopTriggered then st1 else processIncrements cfg rest st1

/-- The state of `writeMessagesStream` right after the `message_start` event. -/
def initClaudeStreamState : ClaudeStreamState :=
  { events := [ClaudeEvent.messageStart]
    blockIndex := 0
    textBlockOpen := false
    textBlockIndex := 0
    hasToolUse := false
    emittedContentBlock := false
    stopReason := []
    stopSequence := none
    stopTriggered := false
    outputChars := 0
    textBuf := []
    cancelled := false }

/-- The tail of `writeMessagesStream` after the receive loop: flush the
buffer, close the text block, emit the empty fallback block when nothing was
emitted, resolve the stop reason and write `message_delta`/`message_stop`. -/
def finalizeMessagesStream (cfg : ClaudeStreamConfig) (st : ClaudeStreamState) :
    ClaudeStreamState :=
  let st1 := flushAllTextBuf cfg st
  let st2 := closeTextBlock st1
  let st3 :=
    if st2.emittedContentBlock then st2
    else
      { st2 with
        events := st2.events ++
          [ClaudeEvent.blockStartText st2.blockIndex [], ClaudeEvent.blockStop st2.blockIndex] }
  let reason :=
    if st3.hasToolUse then goStr "tool_use"
    else if st3.stopReason.isEmpty then goStr "end_turn"
    else st3.stopReason
  let seq := if st3.hasToolUse then none else st3.stopSequence
  { st3 with
    stopReason := reason
    stopSequence := seq
    events := st3.events ++
      [ClaudeEvent.messageDelta reason seq (estimateClaudeTokensFromChars st3.outputChars),
        ClaudeEvent.messageStop] }

/-- One full `writeMessagesStream` run over a list of text increments
(tool-call channel empty). -/
def runMessagesStream (cfg : ClaudeStreamConfig) (increments : List GoStr) :
    ClaudeStreamState :=
  finalizeMessagesStream cfg (processIncrements cfg increments initClaudeStreamState)

/-! Dynamic JSON values, as produced by Go `encoding/json.Unmarshal` into
`any` and consumed by `json.Marshal`.  Numbers are carried as their source
lexemes: Go decodes a number to `float64` and re-encodes it with the
shortest round-tripping decimal form, which is the identity on the short
decimal lexemes relevant here (the abstraction is noted where relied on).
A `Json.obj` models a decoded Go `map[string]any` and is kept in canonical
form: keys strictly sorted in byte order and duplicate-free.  This is a
faithful representation of an (unordered) Go map, and it lets `renderJson`
emit fields in stored order, exactly as `json.Marshal` emits map keys in
sorted order. -/

inductive Json where
  | null : Json
  | boolean : Bool → Json
  | number : GoStr → Json
  | str : GoStr → Json
  | arr : List Json → Json
  | obj : List (GoStr × Json) → Json

/-- Lexicographic byte order on strings (Go `<` on strings, used by
`json.Marshal` to sort map keys). -/
def goStrLt : GoStr → GoStr → Bool
  | [], [] => false
  | [], _ :: _ => true
  | _ :: _, [] => false
  | a :: as, b :: bs => if a < b then true else if b < a then false else goStrLt as bs

/-- Assignment `m[k] = v` on a decoded Go map in canonical (sorted,
duplicate-free) form: overwrite the value when the key exists, otherwise
insert the key at its sorted position. -/
def objInsert (k : GoStr) (v : Json) : List (GoStr × Json) → List (GoStr × Json)
  | [] => [(k, v)]
  | kv :: rest =>
    if k = kv.1 then (k, v) :: rest
    else if goStrLt k kv.1 then (k, v) :: kv :: rest
    else kv :: objInsert k v rest

/-- Hex digit used when rendering `\u00XX` escapes. -/
def hexDigitChar (n : Nat) : Char :=
  if n < 10 then Char.ofNat (48 + n) else Char.ofNat (97 + n - 10)

/-- Escaping of one character by Go `encoding/json` string encoding (with
the default HTML escaping of `<`, `>`, `&`). -/
def jsonEscapeChar (c : Char) : GoStr :=
  if c = '"' then goStr "\\\""
  else if c = '\\' then goStr "\\\\"
  else if c = '\n' then goStr "\\n"
  else if c = '\r' then goStr "\\r"
  else if c = '\t' then goStr "\\t"
  else if c = '<' then goStr "\\u003c"
  else if c = '>' then goStr "\\u003e"
  else if c = '&' then goStr "\\u0026"
  else if c.toNat < 32 then
    goStr "\\u00" ++ [hexDigitChar (c.toNat / 16), hexDigitChar (c.toNat % 16)]
  else [c]

/-- Go `encoding/json` rendering of a string: quote and escape. -/
def jsonQuote (s : GoStr) : GoStr := '"' :: (s.map jsonEscapeChar).flatten ++ ['"']

mutual

/-- Go `json.Marshal` of a decoded `any` value (object fields are stored
in canonical sorted key order, see `Json`). -/
def renderJson : Json → GoStr
  | .null => goStr "null"
  | .boolean true => goStr "true"
  | .boolean false => goStr "false"
  | .number lexeme => lexeme
  | .str s => jsonQuote s
  | .arr items => '[' :: renderJsonItems items ++ [']']
  | .obj fields => '{' :: renderJsonFields fields ++ ['}']

/-- Array elements, comma separated. -/
def renderJsonItems : List Json → GoStr
  | [] => []
  | [x] => renderJson x
  | x :: y :: rest => renderJson x ++ ',' :: renderJsonItems (y :: rest)

/-- Object fields `"key":value`, comma separated. -/
def renderJsonFields : List (GoStr × Json) → GoStr
  | [] => []
  | [kv] => jsonQuote kv.1 ++ ':' :: renderJson kv.2
  | kv :: y :: rest => jsonQuote kv.1 ++ ':' :: renderJson kv.2 ++ ',' :: renderJsonFields (y :: rest)

end

/-- JSON insignificant whitespace (space, tab, newline, carriage return). -/
def skipWs (s : GoStr) : GoStr :=
  s.dropWhile (fun c => c = ' ' || c = '\t' || c = '\n' || c = '\r')

/-- Decimal digit test for the JSON number grammar. -/
def isJsonDigit (c : Char) : Bool := decide ('0' ≤ c ∧ c ≤ '9')

/-- Longest number lexeme (`-?int frac? exp?`) at the head of `s`, with the
remaining input.  `none` when `s` does not start with a number. -/
def parseNumberLexeme (s : GoStr) : Option (GoStr × GoStr) :=
  let signed := match s with
    | '-' :: rest => (['-'], rest)
    | _ => (([] : GoStr), s)
  let intPart := signed.2.takeWhile isJsonDigit
  let s2 := signed.2.dropWhile isJsonDigit
  if intPart.isEmpty then none
  else
    let fraced :=
      match s2 with
      | '.' :: rest =>
        let ds := rest.takeWhile isJsonDigit
        if ds.isEmpty then (([] : GoStr), s2) else ('.' :: ds, rest.dropWhile isJsonDigit)
      | _ => (([] : GoStr), s2)
    let exped :=
      match fraced.2 with
      | c :: rest =>
        if c = 'e' || c = 'E' then
          let sgn := match rest with
            | '+' :: r => ((['+'] : GoStr), r)
            | '-' :: r => ((['-'] : GoStr), r)
            | _ => (([] : GoStr), rest)
          let ds := sgn.2.takeWhile isJsonDigit
          if ds.isEmpty then (([] : GoStr), fraced.2)
          else (c :: sgn.1 ++ ds, sgn.2.dropWhile isJsonDigit)
        else (([] : GoStr), fraced.2)
      | [] => (([] : GoStr), fraced.2)
    some (signed.1 ++ intPart ++ fraced.1 ++ exped.1, exped.2)

/-- Value of a hex digit, `none` for a non-hex character. -/
def hexVal (c : Char) : Option Nat :=
  if '0' ≤ c ∧ c ≤ '9' then some (c.toNat - 48)
  else if 'a' ≤ c ∧ c ≤ 'f' then some (c.toNat - 97 + 10)
  else if 'A' ≤ c ∧ c ≤ 'F' then some (c.toNat - 65 + 10)
  else none

/-- JSON string body after the opening quote: decoded content and the
remaining input after the closing quote (fuelled; the fuel given by
callers exceeds the input length, which bounds the recursion depth). -/
def parseJsonString : Nat → GoStr → GoStr → Option (GoStr × GoStr)
  | 0, _, _ => none
  | fuel + 1, acc, s =>
    match s with
    | [] => none
    | '"' :: rest => some (acc.reverse, rest)
    | '\\' :: esc :: rest =>
      if esc = '"' then parseJsonString fuel ('"' :: acc) rest
      else if esc = '\\' then parseJsonString fuel ('\\' :: acc) rest
      else if esc = '/' then parseJsonString fuel ('/' :: acc) rest
      else if esc = 'b' then parseJsonString fuel (Char.ofNat 8 :: acc) rest
      else if esc = 'f' then parseJsonString fuel (Char.ofNat 12 :: acc) rest
      else if esc = 'n' then parseJsonString fuel ('\n' :: acc) rest
      else if esc = 'r' then parseJsonString fuel ('\r' :: acc) rest
      else if esc = 't' then parseJsonString fuel ('\t' :: acc) rest
      else if esc = 'u' then
        match rest with
        | h1 :: h2 :: h3 :: h4 :: rest2 =>
          match hexVal h1, hexVal h2, hexVal h3, hexVal h4 with
          | some a, some b, some c, some d =>
            parseJsonString fuel (Char.ofNat (((a * 16 + b) * 16 + c) * 16 + d) :: acc) rest2
          | _, _, _, _ => none
        | _ => none
      else none
    | c :: rest => parseJsonString fuel (c :: acc) rest

mutual

/-- One JSON value at the head of the input (after whitespace), with the
remaining input.  Fuelled: every recursive call strictly decreases the
fuel, and callers supply fuel exceeding any possible derivation depth. -/
def parseJsonValue : Nat → GoStr → Option (Json × GoStr)
  | 0, _ => none
  | fuel + 1, s =>
    match skipWs s with
    | [] => none
    | 'n' :: rest =>
      if (goStr "ull").isPrefixOf rest then some (.null, rest.drop 3) else none
    | 't' :: rest =>
      if (goStr "rue").isPrefixOf rest then some (.boolean true, rest.drop 3) else none
    | 'f' :: rest =>
      if (goStr "alse").isPrefixOf rest then some (.boolean false, rest.drop 4) else none
    | '"' :: rest =>
      match parseJsonString (rest.length + 1) [] rest with
      | some (body, r) => some (.str body, r)
      | none => none
    | '[' :: rest =>
      match skipWs rest with
      | ']' :: r => some (.arr [], r)
      | _ => parseJsonItems fuel rest []
    | '{' :: rest =>
      match skipWs rest with
      | '}' :: r => some (.obj [], r)
      | _ => parseJsonFields fuel rest []
    | other =>
      match parseNumberLexeme other with
      | some (lexeme, r) => some (.number lexeme, r)
      | none => none

/-- Elements of a JSON array after `[` (at least one element). -/
def parseJsonItems : Nat → GoStr → List Json → Option (Json × GoStr)
  | 0, _, _ => none
  | fuel + 1, s, acc =>
    match parseJsonValue fuel s with
    | none => none
    | some (v, r) =>
      match skipWs r with
      | ',' :: r2 => parseJsonItems fuel r2 (acc ++ [v])
      | ']' :: r2 => some (.arr (acc ++ [v]), r2)
      | _ => none

/-- Fields of a JSON object after `{` (at least one field); duplicate keys
overwrite as in a Go map. -/
def parseJsonFields : Nat → GoStr → List (GoStr × Json) → Option (Json × GoStr)
  | 0, _, _ => none
  | fuel + 1, s, acc =>
    match skipWs s with
    | '"' :: rest =>
      match parseJsonString (rest.length + 1) [] rest with
      | none => none
      | some (k, r) =>
        match skipWs r with
        | ':' :: r2 =>
          match parseJsonValue fuel r2 with
          | none => none
          | some (v, r3) =>
            match skipWs r3 with
            | ',' :: r4 => parseJsonFields fuel r4 (objInsert k v acc)
            | '}' :: r4 => some (.obj (objInsert k v acc), r4)
            | _ => none
        | _ => none
    | _ => none

end

/-- Go `json.Unmarshal` of a complete document into `any`: one value plus
optional trailing whitespace.  The fuel `2 * length + 2` exceeds the
derivation depth of any input of this length. -/
def jsonUnmarshal (s : GoStr) : Option Json :=
  match parseJsonValue (2 * s.length + 2) s with
  | some (v, rest) => if (skipWs rest).isEmpty then some v else none
  | none => none

/-- Lookup in a decoded JSON object (Go `m[key]` with its presence bit). -/
def jlookup : List (GoStr × Json) → GoStr → Option Json
  | [], _ => none
  | kv :: rest, key => if kv.1 = key then some kv.2 else jlookup rest key

/-- Go `v, _ := m[key].(string)`: string value of a field, `""` when the
field is absent or not a string. -/
def getString (m : List (GoStr × Json)) (key : GoStr) : GoStr :=
  match jlookup m key with
  | some (.str s) => s
  | _ => []

/-- Lookup in a Go `map[string]V` modelled as an association list. -/
def assocGet {β : Type} : List (GoStr × β) → GoStr → Option β
  | [], _ => none
  | kv :: rest, key => if kv.1 = key then some kv.2 else assocGet rest key

/-- Assignment `m[key] = v` on a Go map modelled as an association list. -/
def assocSet {β : Type} : List (GoStr × β) → GoStr → β → List (GoStr × β)
  | [], key, v => [(key, v)]
  | kv :: rest, key, v =>
    if kv.1 = key then (key, v) :: rest else kv :: assocSet rest key v

/-- Go map read with the zero-value default: `m[key]` as a plain string. -/
def assocGetD (m : List (GoStr × GoStr)) (key : GoStr) : GoStr :=
  (assocGet m key).getD []

/-- backend `ToolCall` (fields as used throughout backend/chat_model.go
and openaihttp/compat.go: ID, Name, Arguments, Status, all strings). -/
structure ToolCall where
  ID : GoStr
  Name : GoStr
  Arguments : GoStr
  Status : GoStr
  deriving DecidableEq

/-- backend/chat_model.go `functionCallMeta`. -/
structure functionCallMeta where
  CallID : GoStr
  Name : GoStr
  deriving DecidableEq

/-- backend/chat_model.go `functionCallState`: per-item-id metadata and
accumulated argument buffers. -/
structure functionCallState where
  itemMeta : List (GoStr × functionCallMeta)
  args : List (GoStr × GoStr)
  deriving DecidableEq

/-- backend/tools.go `FormatNativeToolName`. -/
def FormatNativeToolName (name : GoStr) : GoStr :=
  let trimmed := goTrimSpace name
  if trimmed.isEmpty then goStr "native"
  else if (goStr "native.").isPrefixOf trimmed then trimmed
  else goStr "native." ++ trimmed

/-- backend/chat_model.go `toolNameFromItemType`. -/
def toolNameFromItemType (itemType : GoStr) : GoStr :=
  if itemType = goStr "web_search_call" then FormatNativeToolName (goStr "web_search")
  else if itemType = goStr "code_interpreter_call" then FormatNativeToolName (goStr "python_runner")
  else []

/-- backend/chat_model.go `toolStatusFromEvent`. -/
def toolStatusFromEvent (eventType : GoStr) : GoStr :=
  if eventType = goStr "response.output_item.added" ∨
      eventType = goStr "response.web_search_call.in_progress" ∨
      eventType = goStr "response.code_interpreter_call.in_progress" then
    goStr "in_progress"
  else if eventType = goStr "response.web_search_call.searching" then goStr "searching"
  else if eventType = goStr "response.output_item.done" ∨
      eventType = goStr "response.web_search_call.completed" ∨
      eventType = goStr "response.code_interpreter_call.completed" then
    goStr "completed"
  else []

/-- backend/chat_model.go `toolStatusFromItem`. -/
def toolStatusFromItem (eventType : GoStr) (item : List (GoStr × Json)) : GoStr :=
  match jlookup item (goStr "status") with
  | some (.str rawStatus) =>
    let normalized := goToLower (goTrimSpace rawStatus)
    if !normalized.isEmpty then normalized else toolStatusFromEvent eventType
  | _ => toolStatusFromEvent eventType

/-- backend/chat_model.go `toolCallFromItem`.  `json.Marshal` of a decoded
non-string `arguments` value is `renderJson` (it cannot fail on decoded
values; `Marshal(nil)` yields `null`). -/
def toolCallFromItem (eventType : GoStr) (item : List (GoStr × Json)) : Option ToolCall :=
  let itemType := getString item (goStr "type")
  if itemType = goStr "function_call" then
    let name := goTrimSpace (getString item (goStr "name"))
    if name.isEmpty then none
    else
      let callID0 := getString item (goStr "call_id")
      let callID := if callID0.isEmpty then getString item (goStr "id") else callID0
      if callID.isEmpty then none
      else
        let arguments :=
          match jlookup item (goStr "arguments") with
          | some (.str value) => value
          | some value => renderJson value
          | none => []
        some { ID := callID, Name := name, Arguments := arguments,
               Status := toolStatusFromItem eventType item }
  else
    let toolName := toolNameFromItemType itemType
    if toolName.isEmpty then none
    else
      let callID := getString item (goStr "id")
      if callID.isEmpty then none
      else
        let arguments :=
          match jlookup item (goStr "action") with
          | some (.obj fields) => if fields.isEmpty then [] else renderJson (.obj fields)
          | _ => []
        some { ID := callID, Name := toolName, Arguments := arguments,
               Status := toolStatusFromItem eventType item }

/-- backend/chat_model.go `toolCallsFromItem` (the `functionCalls` state is
threaded explicitly instead of being mutated). -/
def toolCallsFromItem (eventType : GoStr) (item : List (GoStr × Json))
    (fc : functionCallState) : List ToolCall × functionCallState :=
  match toolCallFromItem eventType item with
  | none => ([], fc)
  | some call =>
    let itemType := getString item (goStr "type")
    if itemType = goStr "function_call" then
      let itemID := getString item (goStr "id")
      if itemID.isEmpty then ([call], fc)
      else
        let meta : functionCallMeta :=
          { CallID := goTrimSpace call.ID, Name := goTrimSpace call.Name }
        let fc1 :=
          if !meta.CallID.isEmpty && !meta.Name.isEmpty then
            { fc with itemMeta := assocSet fc.itemMeta itemID meta }
          else fc
        let args := goTrimSpace call.Arguments
        if !args.isEmpty then
          ([call], { fc1 with args := assocSet fc1.args itemID args })
        else
          let cached := goTrimSpace (assocGetD fc1.args itemID)
          if !cached.isEmpty then ([{ call with Arguments := cached }], fc1)
          else ([call], fc1)
    else ([call], fc)

/-- The loop body of backend/chat_model.go `toolCallsFromResponseCompleted`
over the `output` array. -/
def outputItemsCalls : List Json → functionCallState → List ToolCall × functionCallState
  | [], fc => ([], fc)
  | entry :: rest, fc =>
    match entry with
    | .obj item =>
      let this := toolCallsFromItem (goStr "response.output_item.done") item fc
      let more := outputItemsCalls rest this.2
      (this.1 ++ more.1, more.2)
    | _ => outputItemsCalls rest fc

/-- backend/chat_model.go `toolCallsFromResponseCompleted`. -/
def toolCallsFromResponseCompleted (raw : List (GoStr × Json))
    (fc : functionCallState) : List ToolCall × functionCallState :=
  match jlookup raw (goStr "response") with
  | some (.obj resp) =>
    match jlookup resp (goStr "output") with
    | some (.arr output) =>
      if output.isEmpty then ([], fc) else outputItemsCalls output fc
    | _ => ([], fc)
  | _ => ([], fc)

/-- backend/chat_model.go `applyFunctionCallArgumentsDelta`:
`functionCalls.args[itemID] += delta`, with the `delta` field preferred
over `arguments_delta` (a non-string `delta` falls through, as the Go type
assertion does). -/
def applyFunctionCallArgumentsDelta (raw : List (GoStr × Json))
    (fc : functionCallState) : functionCallState :=
  let itemID := goTrimSpace (getString raw (goStr "item_id"))
  if itemID.isEmpty then fc
  else
    let delta :=
      match jlookup raw (goStr "delta") with
      | some (.str value) => value
      | _ =>
        match jlookup raw (goStr "arguments_delta") with
        | some (.str value) => value
        | _ => []
    if delta.isEmpty then fc
    else { fc with args := assocSet fc.args itemID (assocGetD fc.args itemID ++ delta) }

/-- backend/chat_model.go `toolCallFromFunctionCallArgumentsDone`: the
returned call (if any) together with the updated state (the Go function
mutates `functionCalls.args`). -/
def toolCallFromFunctionCallArgumentsDone (raw : List (GoStr × Json))
    (fc : functionCallState) : Option ToolCall × functionCallState :=
  let itemID := goTrimSpace (getString raw (goStr "item_id"))
  if itemID.isEmpty then (none, fc)
  else
    let explicitArgs := goTrimSpace (getString raw (goStr "arguments"))
    let arguments :=
      if explicitArgs.isEmpty then goTrimSpace (assocGetD fc.args itemID)
      else explicitArgs
    let fc1 :=
      if !arguments.isEmpty then { fc with args := assocSet fc.args itemID arguments }
      else fc
    match assocGet fc1.itemMeta itemID with
    | none => (none, fc1)
    | some meta =>
      let callID0 := goTrimSpace meta.CallID
      let callID := if callID0.isEmpty then itemID else callID0
      let name := goTrimSpace meta.Name
      if name.isEmpty then (none, fc1)
      else
        (some { ID := callID, Name := name, Arguments := arguments,
                Status := goStr "completed" }, fc1)

/-- backend/chat_model.go `toolCallFromItemID`. -/
def toolCallFromItemID (eventType itemID itemType : GoStr) : Option ToolCall :=
  if itemID.isEmpty then none
  else
    let toolName := toolNameFromItemType itemType
    if toolName.isEmpty then none
    else
      some { ID := itemID, Name := toolName, Arguments := [],
             Status := toolStatusFromEvent eventType }

/-- backend/chat_model.go `extractToolCalls` (state threaded explicitly;
the Go version returns no `nil` entries, so the list is of plain calls). -/
def extractToolCalls (eventType : GoStr) (raw : List (GoStr × Json))
    (fc : functionCallState) : List ToolCall × functionCallState :=
  if eventType = goStr "response.output_item.added" ∨
      eventType = goStr "response.output_item.done" then
    match jlookup raw (goStr "item") with
    | some (.obj item) => toolCallsFromItem eventType item fc
    | _ => ([], fc)
  else if eventType = goStr "response.completed" then
    toolCallsFromResponseCompleted raw fc
  else if eventType = goStr "response.function_call_arguments.delta" then
    ([], applyFunctionCallArgumentsDelta raw fc)
  else if eventType = goStr "response.function_call_arguments.done" then
    match toolCallFromFunctionCallArgumentsDone raw fc with
    | (some call, fc1) => ([call], fc1)
    | (none, fc1) => ([], fc1)
  else if eventType = goStr "response.web_search_call.in_progress" ∨
      eventType = goStr "response.web_search_call.searching" ∨
      eventType = goStr "response.web_search_call.completed" then
    match toolCallFromItemID eventType (getString raw (goStr "item_id"))
        (goStr "web_search_call") with
    | some call => ([call], fc)
    | none => ([], fc)
  else if eventType = goStr "response.code_interpreter_call.in_progress" ∨
      eventType = goStr "response.code_interpreter_call.completed" then
    match toolCallFromItemID eventType (getString raw (goStr "item_id"))
        (goStr "code_interpreter_call") with
    | some call => ([call], fc)
    | none => ([], fc)
  else ([], fc)

/-- backend/chat_model.go `extractDeltaText`. -/
def extractDeltaText (raw : List (GoStr × Json)) : GoStr :=
  match jlookup raw (goStr "delta") with
  | none => getString raw (goStr "text")
  | some .null => getString raw (goStr "text")
  | some (.str value) => value
  | some (.obj value) => getString value (goStr "text")
  | some _ => []

/-- backend/chat_model.go `extractOutputTextFromContent`. -/
def extractOutputTextFromContent : List Json → GoStr
  | [] => []
  | part :: rest =>
    match part with
    | .obj partMap =>
      if getString partMap (goStr "type") = goStr "output_text" then
        (match jlookup partMap (goStr "text") with
         | some (.str text) => text
         | _ => []) ++ extractOutputTextFromContent rest
      else extractOutputTextFromContent rest
    | _ => extractOutputTextFromContent rest

/-- The loop of backend/chat_model.go `extractResponseText` over the
`output` array. -/
def extractResponseItemsText : List Json → GoStr
  | [] => []
  | item :: rest =>
    match item with
    | .obj itemMap =>
      (match jlookup itemMap (goStr "content") with
       | some (.arr content) => extractOutputTextFromContent content
       | _ => []) ++ extractResponseItemsText rest
    | _ => extractResponseItemsText rest

/-- backend/chat_model.go `extractResponseText`. -/
def extractResponseText (raw : List (GoStr × Json)) : GoStr :=
  match jlookup raw (goStr "response") with
  | some (.obj resp) =>
    match jlookup resp (goStr "output") with
    | some (.arr output) => extractResponseItemsText output
    | _ => []
  | _ => []

/-- backend/chat_model.go `extractOutputItemText`. -/
def extractOutputItemText (raw : List (GoStr × Json)) : GoStr :=
  match jlookup raw (goStr "item") with
  | some (.obj item) =>
    if getString item (goStr "type") = goStr "message" then
      match jlookup item (goStr "content") with
      | some (.arr content) => extractOutputTextFromContent content
      | _ => []
    else []
  | _ => []

/-- backend/chat_model.go `extractContentPartText`. -/
def extractContentPartText (raw : List (GoStr × Json)) : GoStr :=
  match jlookup raw (goStr "part") with
  | some (.obj part) =>
    if getString part (goStr "type") = goStr "output_text" then
      match jlookup part (goStr "text") with
      | some (.str text) => text
      | _ =>
        match jlookup part (goStr "delta") with
        | some (.str delta) => delta
        | _ => []
    else []
  | _ => []

/-- backend/chat_model.go `resolveErrorMessage` (an `error` field that is
not a map, or a map without a string `message`, falls through to the
top-level `message` field, exactly as the nested type assertions do). -/
def resolveErrorMessage (raw : List (GoStr × Json)) : GoStr :=
  match jlookup raw (goStr "error") with
  | some (.obj errMap) =>
    match jlookup errMap (goStr "message") with
    | some (.str msg) => msg
    | _ => getString raw (goStr "message")
  | _ => getString raw (goStr "message")

/-- Outcome of one `handleBackendEvent` call: `nil`, `errStreamDone`, or a
formatted backend error (its message text). -/
inductive EventOutcome where
  | ok : EventOutcome
  | streamDone : EventOutcome
  | failed : GoStr → EventOutcome
  deriving DecidableEq

/-- The state mutated by backend/chat_model.go `handleBackendEvent` across
events: the content accumulator, the has-delta flag and the function-call
state (`readBackendSSE` always passes non-nil pointers for all three). -/
structure BackendSSEState where
  fullContent : GoStr
  hasDelta : Bool
  functionCalls : functionCallState
  deriving DecidableEq

/-- The `appendDelta` closure of `handleBackendEvent`: on a non-empty
delta, set the has-delta flag, extend the accumulator, and forward the
delta to `onDelta` (collected as a list; `onDelta` errors are outside the
model). -/
def appendDeltaTo (st : BackendSSEState) (delta : GoStr) : BackendSSEState × List GoStr :=
  if delta.isEmpty then (st, [])
  else ({ st with hasDelta := true, fullContent := st.fullContent ++ delta }, [delta])

/-- backend/chat_model.go `handleBackendEvent` on an already-decoded event
object (the Go function silently ignores undecodable payloads before this
logic runs).  Returns the new state, the deltas passed to `onDelta`, the
calls passed to `onToolCall`, and the outcome. -/
def handleBackendEvent (raw : List (GoStr × Json)) (st : BackendSSEState) :
    BackendSSEState × List GoStr × List ToolCall × EventOutcome :=
  let eventType := getString raw (goStr "type")
  let extracted := extractToolCalls eventType raw st.functionCalls
  let toolCalls := extracted.1
  let st1 : BackendSSEState := { st with functionCalls := extracted.2 }
  if eventType = goStr "response.output_text.delta" then
    let out := appendDeltaTo st1 (extractDeltaText raw)
    (out.1, out.2, toolCalls, .ok)
  else if eventType = goStr "response.output_text.done" then
    if st1.hasDelta then (st1, [], toolCalls, .ok)
    else
      let delta0 := extractDeltaText raw
      let delta := if delta0.isEmpty then extractResponseText raw else delta0
      let out := appendDeltaTo st1 delta
      (out.1, out.2, toolCalls, .ok)
  else if eventType = goStr "response.content_part.added" then
    let out := appendDeltaTo st1 (extractContentPartText raw)
    (out.1, out.2, toolCalls, .ok)
  else if eventType = goStr "response.content_part.done" then
    if st1.hasDelta then (st1, [], toolCalls, .ok)
    else
      let delta0 := extractContentPartText raw
      let delta := if delta0.isEmpty then extractResponseText raw else delta0
      let out := appendDeltaTo st1 delta
      (out.1, out.2, toolCalls, .ok)
  else if eventType = goStr "response.output_item.done" then
    if st1.hasDelta then (st1, [], toolCalls, .ok)
    else
      let out := appendDeltaTo st1 (extractOutputItemText raw)
      (out.1, out.2, toolCalls, .ok)
  else if eventType = goStr "response.completed" ∨ eventType = goStr "response.created" then
    if st1.hasDelta then
      (st1, [], toolCalls,
        if eventType = goStr "response.completed" then .streamDone else .ok)
    else
      let out := appendDeltaTo st1 (extractResponseText raw)
      (out.1, out.2, toolCalls,
        if eventType = goStr "response.completed" then .streamDone else .ok)
  else if eventType = goStr "response.failed" ∨ eventType = goStr "error" then
    let message0 := resolveErrorMessage raw
    let message := if message0.isEmpty then goStr "unknown error" else message0
    (st1, [], toolCalls, .failed message)
  else (st1, [], toolCalls, .ok)

/-- A `response.function_call_arguments.delta` event carrying one argument
fragment for one item id. -/
def functionCallDeltaEvent (itemID frag : GoStr) : List (GoStr × Json) :=
  [(goStr "type", Json.str (goStr "response.function_call_arguments.delta")),
   (goStr "item_id", Json.str itemID),
   (goStr "delta", Json.str frag)]

/-- A `response.function_call_arguments.done` event with no explicit
`arguments` field. -/
def functionCallDoneEvent (itemID : GoStr) : List (GoStr × Json) :=
  [(goStr "type", Json.str (goStr "response.function_call_arguments.done")),
   (goStr "item_id", Json.str itemID)]

/-! The OpenAI-compatibility chunk translator (openaihttp/compat.go). -/

/-- openaihttp/compat.go `requiresNonEmptyToolArguments`. -/
def requiresNonEmptyToolArguments (name : GoStr) : Bool :=
  goEqualFold (goTrimSpace name) (goStr "Task")

/-- openaihttp/compat.go `requiresCompletedToolCall`. -/
def requiresCompletedToolCall (name : GoStr) : Bool :=
  goEqualFold (goTrimSpace name) (goStr "Task")

/-- openaihttp/compat.go `requiresJSONObjectToolArguments`. -/
def requiresJSONObjectToolArguments (name : GoStr) : Bool :=
  goEqualFold (goTrimSpace name) (goStr "Task")

/-- openaihttp/compat.go `requiresTaskCoreFields`. -/
def requiresTaskCoreFields (name : GoStr) : Bool :=
  goEqualFold (goTrimSpace name) (goStr "Task")

/-- openaihttp/compat.go `hasNonEmptyStringField`. -/
def hasNonEmptyStringField (input : List (GoStr × Json)) (key : GoStr) : Bool :=
  match jlookup input key with
  | some (.str s) => !(goTrimSpace s).isEmpty
  | _ => false

/-- openaihttp/compat.go `normalizeJSONArgumentString`: trim, then JSON
round-trip (decode with `json.Unmarshal`, re-encode with `json.Marshal`);
on a decode failure the trimmed input is returned unchanged (`Marshal` of
a decoded value cannot fail). -/
def normalizeJSONArgumentString (raw : GoStr) : GoStr :=
  let trimmed := goTrimSpace raw
  if trimmed.isEmpty then trimmed
  else
    match jsonUnmarshal trimmed with
    | none => trimmed
    | some decoded => renderJson decoded

/-- Go `json.Unmarshal` of `args` into a `map[string]any`: succeeds for a
top-level object, and for `null` (which leaves the map nil, i.e. empty);
fails for every other document. -/
def jsonObjectFields (args : GoStr) : Option (List (GoStr × Json)) :=
  match jsonUnmarshal args with
  | some (.obj fields) => some fields
  | some .null => some []
  | _ => none

/-- openaihttp/compat.go `toolCallArgumentsForStream`: the arguments to
emit (or `none` to suppress the chunk) and the updated `lastArgs` cache
(the Go function mutates the map it is handed). -/
def toolCallArgumentsForStream (call : Option ToolCall)
    (lastArgs : List (GoStr × GoStr)) : Option GoStr × List (GoStr × GoStr) :=
  match call with
  | none => (none, lastArgs)
  | some call =>
    let callID := goTrimSpace call.ID
    if callID.isEmpty then (none, lastArgs)
    else
      let toolName := goTrimSpace call.Name
      let callStatus := goTrimSpace call.Status
      if requiresCompletedToolCall toolName && !goEqualFold callStatus (goStr "completed") then
        (none, lastArgs)
      else
        let args0 := goTrimSpace call.Arguments
        if requiresNonEmptyToolArguments toolName && (args0.isEmpty || args0 = ['{', '}']) then
          (none, lastArgs)
        else
          match (if args0.isEmpty then
                   (if !call.Status.isEmpty && call.Status ≠ goStr "completed" then none
                    else some (['{', '}'] : GoStr))
                 else some args0) with
          | none => (none, lastArgs)
          | some args1 =>
            let args := normalizeJSONArgumentString args1
            let objectGate :=
              if requiresJSONObjectToolArguments toolName then
                match jsonObjectFields args with
                | none => false
                | some fields =>
                  if fields.isEmpty then false
                  else if requiresTaskCoreFields toolName &&
                      (!hasNonEmptyStringField fields (goStr "description") ||
                       !hasNonEmptyStringField fields (goStr "prompt") ||
                       !hasNonEmptyStringField fields (goStr "subagent_type")) then
                    false
                  else true
              else true
            if !objectGate then (none, lastArgs)
            else
              match assocGet lastArgs callID with
              | some prev =>
                if prev = args then (none, lastArgs)
                else (some args, assocSet lastArgs callID args)
              | none => (some args, assocSet lastArgs callID args)

/-- Capacity of the tool-call notification channels
(`make(chan *backend.ToolCall, 16)` in openaihttp/compat.go
`handleStreamResponse` and openaihttp/claude.go `handleMessages`). -/
def toolCallChanCapacity : Nat := 16

/-- The nonblocking send `select { case toolCallChan <- call: default: }`
used by both tool-call handlers: append the call when the buffered channel
has room, otherwise drop it (the `default` branch only logs). -/
def offerToolCall (capacity : Nat) (queue : List ToolCall) (call : ToolCall) :
    List ToolCall :=
  if queue.length < capacity then queue ++ [call] else queue

/-! The backend retry orchestrator (backend/chat_model.go
`doStreamRequest`) and its error classifiers. -/

/-- backend/tools.go `ToolType` constants. -/
def ToolTypeWebSearch : GoStr := goStr "web_search"

/-- backend/tools.go `ToolTypeCodeInterpreter`. -/
def ToolTypeCodeInterpreter : GoStr := goStr "code_interpreter"

/-- backend/tools.go `ToolContainer` (the Go field `Type` is spelled
`Type'`, since `Type` is reserved). -/
structure ToolContainer where
  Type' : GoStr
  MemoryLimit : GoStr
  deriving DecidableEq

/-- backend/tools.go `ToolDefinition` (`Parameters` is a decoded JSON
object; the Go field `Type` is spelled `Type'`). -/
structure ToolDefinition where
  Type' : GoStr
  Name : GoStr
  Description : GoStr
  Parameters : List (GoStr × Json)
  Container : Option ToolContainer

/-- backend/tools.go `IsUnsupportedToolTypeError`. -/
def IsUnsupportedToolTypeError (message toolType : GoStr) : Bool :=
  let normalized := goToLower (goTrimSpace message)
  let target := goToLower (goTrimSpace toolType)
  if normalized.isEmpty || target.isEmpty then false
  else goContains normalized (goStr "unsupported tool type") && goContains normalized target

/-- backend/tools.go `RemoveToolTypeDefinitions`: the Go loop keeps the
non-matching definitions in order and flags whether any match was dropped;
`filter`/`any` express the same loop (a drained list is returned as `nil`
in Go, which this model identifies with the empty list). -/
def RemoveToolTypeDefinitions (tools : List ToolDefinition) (toolType : GoStr) :
    List ToolDefinition × Bool :=
  let target := goToLower (goTrimSpace toolType)
  if tools.isEmpty || target.isEmpty then (tools, false)
  else
    let removed := tools.any (fun tool => goEqualFold (goTrimSpace tool.Type') target)
    if !removed then (tools, false)
    else (tools.filter (fun tool => !goEqualFold (goTrimSpace tool.Type') target), true)

/-- backend `isTokenChar` (reasoning-effort token boundary test). -/
def isTokenChar (b : Char) : Bool :=
  decide (('a' ≤ b ∧ b ≤ 'z') ∨ ('0' ≤ b ∧ b ≤ '9') ∨ b = '_' ∨ b = '-')

/-- The scanning loop of backend `containsTokenCaseInsensitive`, fuelled:
each iteration advances `start` by at least the (positive) token length,
so any fuel exceeding the haystack length is enough. -/
def containsTokenAux (haystack token : GoStr) : Nat → Nat → Bool
  | 0, _ => false
  | fuel + 1, start =>
    if start < haystack.length then
      match goIndex (haystack.drop start) token with
      | none => false
      | some idx0 =>
        let idx := idx0 + start
        let prevOK := idx = 0 ∨ !isTokenChar (haystack.getD (idx - 1) (Char.ofNat 0)) = true
        let nextPos := idx + token.length
        let nextOK := haystack.length ≤ nextPos ∨
          !isTokenChar (haystack.getD nextPos (Char.ofNat 0)) = true
        if prevOK ∧ nextOK then true
        else containsTokenAux haystack token fuel (idx + token.length)
    else false

/-- backend `containsTokenCaseInsensitive`. -/
def containsTokenCaseInsensitive (haystack token : GoStr) : Bool :=
  if haystack.isEmpty || token.isEmpty then false
  else containsTokenAux haystack token (haystack.length + 1) 0

/-- backend `IsUnsupportedReasoningEffortError`. -/
def IsUnsupportedReasoningEffortError (message effort : GoStr) : Bool :=
  let msg := goToLower (goTrimSpace message)
  let eff := goToLower (goTrimSpace effort)
  if msg.isEmpty || eff.isEmpty then false
  else if !goContains msg (goStr "reasoning.effort") then false
  else if !goContains msg (goStr "unsupported") then false
  else containsTokenCaseInsensitive msg eff

/-- backend `FallbackReasoningEffort`: only `xhigh`/`x-high` fall back (to
`high`). -/
def FallbackReasoningEffort (effort : GoStr) : GoStr × Bool :=
  let normalized := goToLower (goTrimSpace effort)
  if normalized = goStr "xhigh" ∨ normalized = goStr "x-high" then (goStr "high", true)
  else ([], false)

/-- backend/chat_model.go `requestReasoning`. -/
structure requestReasoning where
  Effort : GoStr
  deriving DecidableEq

/-- The retry loop of backend/chat_model.go `doStreamRequest` reads and
rewrites only the `Tools` and `Reasoning` fields of `requestPayload` and
passes every other field through unchanged, so the payload is projected
to those two fields here. -/
structure requestPayload where
  Tools : List ToolDefinition
  Reasoning : Option requestReasoning

/-- Outcome of one `doStreamRequestOnce` call: a successful content
string, a `backendRequestStatusError` (status plus trimmed body), or any
other error (its message). -/
inductive BackendResponse where
  | success : GoStr → BackendResponse
  | statusError : Int → GoStr → BackendResponse
  | otherError : GoStr → BackendResponse
  deriving DecidableEq

/-- One iteration of the `doStreamRequest` retry loop at attempt `n`:
either a final result (`Sum.inl`) or the payload and flags for the next
iteration (`Sum.inr`).  The code-interpreter branch falls through to the
reasoning-effort branch when its classifier matches but nothing was
removed, exactly as the Go `if` with an inner `continue` does. -/
def doStreamStep (oracle : Nat → BackendResponse) (n : Nat) (payload : requestPayload)
    (retriedWithoutCodeInterpreter retriedReasoningEffort : Bool) :
    (Except BackendResponse GoStr) ⊕ (requestPayload × Bool × Bool) :=
  match oracle n with
  | .success content => .inl (.ok content)
  | .statusError status message =>
    if retriedWithoutCodeInterpreter = false ∧ status = 400 ∧
        IsUnsupportedToolTypeError message ToolTypeCodeInterpreter = true ∧
        (RemoveToolTypeDefinitions payload.Tools ToolTypeCodeInterpreter).2 = true then
      .inr ({ payload with
                Tools := (RemoveToolTypeDefinitions payload.Tools ToolTypeCodeInterpreter).1 },
            true, retriedReasoningEffort)
    else
      match payload.Reasoning with
      | some reasoning =>
        if retriedReasoningEffort = false ∧ status = 400 ∧
            (FallbackReasoningEffort (goTrimSpace reasoning.Effort)).2 = true ∧
            IsUnsupportedReasoningEffortError message (goTrimSpace reasoning.Effort) = true then
          .inr ({ payload with
                    Reasoning := some ⟨(FallbackReasoningEffort (goTrimSpace reasoning.Effort)).1⟩ },
                retriedWithoutCodeInterpreter, true)
        else .inl (.error (.statusError status message))
      | none => .inl (.error (.statusError status message))
  | .otherError message => .inl (.error (.otherError message))

/-- How many repair branches are still available to fire. -/
def retryFlagMeasure (retriedWithoutCodeInterpreter retriedReasoningEffort : Bool) : Nat :=
  (if retriedWithoutCodeInterpreter then 0 else 1) +
    (if retriedReasoningEffort then 0 else 1)

/-- The `doStreamRequest` retry loop, fuelled; each continuing step fires
a previously unfired repair flag, so the flag measure strictly decreases
and any fuel exceeding it suffices (`doStreamLoopF_fuel_sufficient`).
Returns the final result and the total number of upstream requests. -/
def doStreamLoopF (oracle : Nat → BackendResponse) :
    Nat → Nat → requestPayload → Bool → Bool → (Except BackendResponse GoStr) × Nat
  | 0, n, _, _, _ => (.error (.otherError (goStr "out of retry fuel")), n)
  | fuel + 1, n, payload, rCI, rRE =>
    match doStreamStep oracle n payload rCI rRE with
    | .inl result => (result, n + 1)
    | .inr (payload1, rCI1, rRE1) => doStreamLoopF oracle fuel (n + 1) payload1 rCI1 rRE1

/-- backend/chat_model.go `doStreamRequest` after payload construction:
run the retry loop from attempt 0 with both repair flags unset.  The fuel
3 strictly exceeds the initial flag measure 2, so the fuel-exhaustion
branch is unreachable (`doStreamLoopF_fuel_sufficient`). -/
def doStreamRequest (oracle : Nat → BackendResponse) (payload : requestPayload) :
    (Except BackendResponse GoStr) × Nat :=
  doStreamLoopF oracle 3 0 payload false false

/-! Basic properties of the string helpers. -/

theorem occursAt_zero {s pat : GoStr} : occursAt s pat 0 ↔ pat <+: s := by
  simp [occursAt]

theorem occursAt_cons_succ {c : Char} {s pat : GoStr} {j : Nat} :
    occursAt (c :: s) pat (j + 1) ↔ occursAt s pat j := by
  simp [occursAt]

theorem occursAt_nil {pat : GoStr} {i : Nat} : occursAt [] pat i ↔ pat = [] := by
  simp [occursAt, List.prefix_nil]

/-- `goIndex` finds an occurrence. -/
theorem goIndex_some_occurs : ∀ {s pat : GoStr} {i : Nat},
    goIndex s pat = some i → occursAt s pat i := by
  intro s
  induction s with
  | nil =>
    intro pat i h
    simp only [goIndex] at h
    split at h
    · rename_i hp
      injection h with h
      subst h
      rw [occursAt_nil]
      simpa [List.isEmpty_iff] using hp
    · exact absurd h (by simp)
  | cons c rest ih =>
    intro pat i h
    simp only [goIndex] at h
    split at h
    · rename_i hp
      injection h with h
      subst h
      rw [occursAt_zero]
      exact List.isPrefixOf_iff_prefix.mp hp
    · rcases Option.map_eq_some'.mp h with ⟨j, hj, rfl⟩
      rw [occursAt_cons_succ]
      exact ih hj

/-- `goIndex` finds the first occurrence. -/
theorem goIndex_some_min : ∀ {s pat : GoStr} {i : Nat},
    goIndex s pat = some i → ∀ j, j < i → ¬ occursAt s pat j := by
  intro s
  induction s with
  | nil =>
    intro pat i h j hj
    simp only [goIndex] at h
    split at h
    · injection h with h; omega
    · exact absurd h (by simp)
  | cons c rest ih =>
    intro pat i h j hj
    simp only [goIndex] at h
    split at h
    · injection h with h; omega
    · rename_i hp
      rcases Option.map_eq_some'.mp h with ⟨i0, hi0, rfl⟩
      cases j with
      | zero =>
        rw [occursAt_zero]
        intro hpre
        exact hp (List.isPrefixOf_iff_prefix.mpr hpre)
      | succ j =>
        rw [occursAt_cons_succ]
        exact ih hi0 j (by omega)

/-- When `goIndex` finds nothing there is no occurrence. -/
theorem goIndex_none_not_occurs : ∀ {s pat : GoStr},
    goIndex s pat = none → ∀ i, ¬ occursAt s pat i := by
  intro s
  induction s with
  | nil =>
    intro pat h i
    simp only [goIndex] at h
    split at h
    · exact absurd h (by simp)
    · rename_i hp
      rw [occursAt_nil]
      intro he
      subst he
      simp at hp
  | cons c rest ih =>
    intro pat h i
    simp only [goIndex] at h
    split at h
    · exact absurd h (by simp)
    · rename_i hp
      have hrest : goIndex rest pat = none := by
        cases hg : goIndex rest pat with
        | none => rfl
        | some v => rw [hg] at h; exact absurd h (by simp)
      cases i with
      | zero =>
        rw [occursAt_zero]
        intro hpre
        exact hp (List.isPrefixOf_iff_prefix.mpr hpre)
      | succ i =>
        rw [occursAt_cons_succ]
        exact ih hrest i

/-- Conversely, a first occurrence is what `goIndex` returns. -/
theorem goIndex_eq_some_intro : ∀ {s pat : GoStr} {i : Nat},
    occursAt s pat i → (∀ j, j < i → ¬ occursAt s pat j) → goIndex s pat = some i := by
  intro s
  induction s with
  | nil =>
    intro pat i hocc hmin
    have hp : pat = [] := occursAt_nil.mp hocc
    subst hp
    cases i with
    | zero => simp [goIndex]
    | succ i => exact absurd (occursAt_nil.mpr rfl) (hmin 0 (by omega))
  | cons c rest ih =>
    intro pat i hocc hmin
    cases i with
    | zero =>
      simp only [goIndex]
      rw [if_pos (List.isPrefixOf_iff_prefix.mpr (occursAt_zero.mp hocc))]
    | succ i =>
      have hp : ¬ pat.isPrefixOf (c :: rest) = true := by
        intro hpre
        exact hmin 0 (by omega) (occursAt_zero.mpr (List.isPrefixOf_iff_prefix.mp hpre))
      simp only [goIndex]
      rw [if_neg hp]
      have : goIndex rest pat = some i := by
        apply ih (occursAt_cons_succ.mp hocc)
        intro j hj
        rw [← occursAt_cons_succ (c := c)]
        exact hmin (j + 1) (by omega)
      rw [this]
      rfl

/-- Occurrences survive appending on the right. -/
theorem occursAt_append_left {s t pat : GoStr} {i : Nat} (h : occursAt s pat i) :
    occursAt (s ++ t) pat i := by
  unfold occursAt at h ⊢
  rcases le_or_lt i s.length with hle | hlt
  · rw [List.drop_append_of_le_length hle]
    exact h.trans (List.prefix_append _ _)
  · have hnil : s.drop i = [] := List.drop_eq_nil_of_le (by omega)
    rw [hnil] at h
    have hpe : pat = [] := List.prefix_nil.mp h
    subst hpe
    exact List.nil_prefix

/-- Occurrences at offsets past a prefix are occurrences of the suffix. -/
theorem occursAt_append_right_iff {s t pat : GoStr} {j : Nat} :
    occursAt (s ++ t) pat (s.length + j) ↔ occursAt t pat j := by
  unfold occursAt
  rw [List.drop_append]

/-- An occurrence that fits inside the left part of an append is an
occurrence of that part. -/
theorem occursAt_of_fits {s t pat : GoStr} {i : Nat} (h : occursAt (s ++ t) pat i)
    (hfit : i + pat.length ≤ s.length) : occursAt s pat i := by
  unfold occursAt at h ⊢
  rw [List.drop_append_of_le_length (by omega)] at h
  have hlen : pat.length ≤ (s.drop i).length := by
    simp only [List.length_drop]
    omega
  rw [List.prefix_iff_eq_take] at h
  rw [List.take_append_of_le_length hlen] at h
  rw [List.prefix_iff_eq_take]
  exact h

/-- An occurrence past the left part of an append is an occurrence of the
right part. -/
theorem occursAt_in_suffix {s t pat : GoStr} {i : Nat} (h : occursAt (s ++ t) pat i)
    (hi : s.length ≤ i) : occursAt t pat (i - s.length) := by
  have heq : i = s.length + (i - s.length) := by omega
  rw [heq] at h
  exact occursAt_append_right_iff.mp h

/-- A (non-empty) occurrence fits inside the string. -/
theorem occursAt_fits {s pat : GoStr} {i : Nat} (hpat : pat ≠ []) (h : occursAt s pat i) :
    i + pat.length ≤ s.length := by
  unfold occursAt at h
  have hlen := h.length_le
  simp only [List.length_drop] at hlen
  have hpos : 0 < pat.length := List.length_pos.mpr hpat
  omega

/-- Occurrences of a dropped suffix, shifted. -/
theorem occursAt_drop {s pat : GoStr} {k i : Nat} :
    occursAt (s.drop k) pat i ↔ occursAt s pat (k + i) := by
  unfold occursAt
  rw [List.drop_drop, Nat.add_comm]

/-- `goIndex` finds nothing in any suffix of a string it finds nothing in. -/
theorem goIndex_none_of_drop {s pat : GoStr} {k : Nat} (h : goIndex s pat = none) :
    goIndex (s.drop k) pat = none := by
  cases hg : goIndex (s.drop k) pat with
  | none => rfl
  | some i =>
    have hocc := occursAt_drop.mp (goIndex_some_occurs hg)
    exact absurd hocc (goIndex_none_not_occurs h (k + i))

theorem ite_some_ne_none {α : Type} {c : Prop} [Decidable c] {x y : α} :
    (if c then some x else some y) ≠ none := by
  split <;> simp

/-- When `findFirstStep` keeps `none`. -/
theorem findFirstStep_none_iff {s : GoStr} {best : Option (Nat × GoStr)} {seq : GoStr} :
    findFirstStep s best seq = none ↔
      best = none ∧ (seq = [] ∨ goIndex s seq = none) := by
  unfold findFirstStep
  split
  · rename_i he
    simp [List.isEmpty_iff.mp he]
  · rename_i he
    have hne : ¬ seq = [] := by simpa [List.isEmpty_iff] using he
    cases hg : goIndex s seq with
    | none => simp [hne]
    | some idx =>
      cases best with
      | none => simp [hne, hg]
      | some b =>
        rcases b with ⟨bi, bs⟩
        constructor
        · intro h
          exact absurd h ite_some_ne_none
        · rintro ⟨hb, -⟩
          exact absurd hb (by simp)

/-- The fold underlying `findFirstClaudeStopSequence` returns `none` exactly
when it started from `none` and no candidate matches. -/
theorem findFirst_foldl_none (s : GoStr) :
    ∀ (L : List GoStr) (best : Option (Nat × GoStr)),
      L.foldl (findFirstStep s) best = none ↔
        best = none ∧ ∀ seq ∈ L, seq = [] ∨ goIndex s seq = none := by
  intro L
  induction L with
  | nil => intro best; simp
  | cons seq L ih =>
    intro best
    simp only [List.foldl_cons]
    rw [ih, findFirstStep_none_iff]
    constructor
    · rintro ⟨⟨hb, hs0⟩, hrest⟩
      exact ⟨hb, fun q hq => by
        rcases List.mem_cons.mp hq with rfl | hq
        · exact hs0
        · exact hrest q hq⟩
    · rintro ⟨hb, hall⟩
      exact ⟨⟨hb, hall seq (List.mem_cons_self _ _)⟩,
        fun q hq => hall q (List.mem_cons_of_mem _ hq)⟩

/-- `findFirstClaudeStopSequence` returns `none` exactly when no non-empty
configured stop sequence occurs in the buffer. -/
theorem findFirst_none_iff {s : GoStr} {L : List GoStr} :
    findFirstClaudeStopSequence s L = none ↔
      ∀ seq ∈ L, seq = [] ∨ goIndex s seq = none := by
  unfold findFirstClaudeStopSequence
  split
  · rename_i hguard
    simp only [true_iff]
    rcases Bool.or_eq_true .. |>.mp hguard with hs | hL
    · intro seq _
      have hs' : s = [] := List.isEmpty_iff.mp hs
      subst hs'
      rcases Classical.em (seq = []) with he | hne
      · exact Or.inl he
      · exact Or.inr (by simp [goIndex, hne])
    · have hL' : L = [] := List.isEmpty_iff.mp hL
      subst hL'
      simp
  · rw [findFirst_foldl_none]
    simp

/-- `findFirstClaudeStopSequence` stays `none` on any suffix of the buffer. -/
theorem findFirst_none_drop {s : GoStr} {L : List GoStr} {k : Nat}
    (h : findFirstClaudeStopSequence s L = none) :
    findFirstClaudeStopSequence (s.drop k) L = none := by
  rw [findFirst_none_iff] at h ⊢
  intro seq hseq
  rcases h seq hseq with he | hn
  · exact Or.inl he
  · exact Or.inr (goIndex_none_of_drop hn)

/-- With a single non-empty stop sequence, `findFirstClaudeStopSequence` is
exactly `goIndex`. -/
theorem findFirst_single {s seq : GoStr} (hseq : seq ≠ []) :
    findFirstClaudeStopSequence s [seq] =
      (goIndex s seq).map (fun i => (i, seq)) := by
  unfold findFirstClaudeStopSequence
  split
  · rename_i hguard
    rcases Bool.or_eq_true .. |>.mp hguard with hs | hL
    · have hs' : s = [] := List.isEmpty_iff.mp hs
      subst hs'
      simp [goIndex, hseq]
    · simp at hL
  · simp only [List.foldl_cons, List.foldl_nil]
    unfold findFirstStep
    rw [if_neg (by simpa [List.isEmpty_iff] using hseq)]
    cases hg : goIndex s seq <;> simp

/-- A continuing `scanStep` iteration strictly shortens the pending buffer
(and leaves exactly `maxStopLen - 1` characters of it). -/
theorem scanStep_inr_textBuf {cfg : ClaudeStreamConfig} {st next : ClaudeStreamState}
    (h : scanStep cfg st = Sum.inr next) :
    next.textBuf.length = cfg.maxStopLen - 1 ∧ next.textBuf.length < st.textBuf.length := by
  unfold scanStep at h
  split at h
  · exact absurd h (by simp)
  split at h
  · exact absurd h (by simp)
  split at h
  · exact absurd h (by simp)
  split at h
  · split at h <;> exact absurd h (by simp)
  split at h
  · exact absurd h (by simp)
  · rename_i hbig
    injection h with h
    subst h
    simp only [List.length_drop]
    omega

/-- Inversion for a continuing `scanStep`: the precise state the next
iteration starts from. -/
theorem scanStep_inr_inv {cfg : ClaudeStreamConfig} {st next : ClaudeStreamState}
    (h : scanStep cfg st = Sum.inr next) :
    st.stopTriggered = false ∧ 1 < cfg.maxStopLen ∧ cfg.maxStopLen - 1 < st.textBuf.length ∧
      next = { emitTextDelta (st.textBuf.take (st.textBuf.length - (cfg.maxStopLen - 1))) st with
               textBuf := st.textBuf.drop (st.textBuf.length - (cfg.maxStopLen - 1)) } := by
  unfold scanStep at h
  split at h
  · exact absurd h (by simp)
  rename_i hstop
  split at h
  · exact absurd h (by simp)
  split at h
  · exact absurd h (by simp)
  split at h
  · split at h <;> exact absurd h (by simp)
  rename_i hms
  split at h
  · exact absurd h (by simp)
  · rename_i hsmall
    injection h with h
    exact ⟨by simpa using hstop, by omega, by omega, h.symm⟩

/-- Inversion for a terminating `scanStep` from a non-stopped state: the
pending buffer it leaves is empty or shorter than `maxStopLen`. -/
theorem scanStep_inl_textBuf {cfg : ClaudeStreamConfig} {st stop : ClaudeStreamState}
    (h : scanStep cfg st = Sum.inl stop) (hnt : st.stopTriggered = false) :
    stop.textBuf = [] ∨ (1 < cfg.maxStopLen ∧ stop.textBuf.length ≤ cfg.maxStopLen - 1) := by
  unfold scanStep at h
  rw [if_neg (show ¬st.stopTriggered = true by simp [hnt])] at h
  split at h
  · injection h with h
    subst h
    exact Or.inl rfl
  split at h
  · injection h with h
    subst h
    exact Or.inl rfl
  split at h
  · split at h
    · rename_i hemp
      injection h with h
      subst h
      exact Or.inl (List.isEmpty_iff.mp hemp)
    · injection h with h
      subst h
      exact Or.inl rfl
  · split at h
    · rename_i hms hsmall
      injection h with h
      subst h
      exact Or.inr ⟨by omega, hsmall⟩
    · exact absurd h (by simp)

/-- Fuel irrelevance for `scanLoopF`: any fuel above the buffer length
computes the loop's fixpoint. -/
theorem scanLoopF_fuel_irrel (cfg : ClaudeStreamConfig) :
    ∀ f₁ f₂ st, st.textBuf.length < f₁ → st.textBuf.length < f₂ →
      scanLoopF cfg f₁ st = scanLoopF cfg f₂ st := by
  intro f₁
  induction f₁ with
  | zero => intro f₂ st h1 _; exact absurd h1 (Nat.not_lt_zero _)
  | succ f₁ ih =>
    intro f₂ st h1 h2
    cases f₂ with
    | zero => exact absurd h2 (Nat.not_lt_zero _)
    | succ f₂ =>
      simp only [scanLoopF]
      cases hstep : scanStep cfg st with
      | inl stop => rfl
      | inr next =>
        have hlen := scanStep_inr_textBuf hstep
        exact ih f₂ next (by omega) (by omega)

/-- The Go loop's recurrence for `scanLoop`. -/
theorem scanLoop_eq (cfg : ClaudeStreamConfig) (st : ClaudeStreamState) :
    scanLoop cfg st =
      match scanStep cfg st with
      | Sum.inl stop => stop
      | Sum.inr next => scanLoop cfg next := by
  unfold scanLoop
  conv_lhs => rw [scanLoopF]
  cases hstep : scanStep cfg st with
  | inl stop => rfl
  | inr next =>
    have hlen := scanStep_inr_textBuf hstep
    exact scanLoopF_fuel_irrel cfg _ _ next (by omega) (by omega)

/-- `scanLoop` on a terminating step. -/
theorem scanLoop_of_inl {cfg : ClaudeStreamConfig} {st stop : ClaudeStreamState}
    (h : scanStep cfg st = Sum.inl stop) : scanLoop cfg st = stop := by
  rw [scanLoop_eq, h]

/-- `scanLoop` on a continuing step. -/
theorem scanLoop_of_inr {cfg : ClaudeStreamConfig} {st next : ClaudeStreamState}
    (h : scanStep cfg st = Sum.inr next) : scanLoop cfg st = scanLoop cfg next := by
  rw [scanLoop_eq, h]

/-- Inversion of a terminating `scanStep` from a non-stopped state with no
budget overflow and no stop-sequence match. -/
theorem scanStep_inl_none_inv {cfg : ClaudeStreamConfig} {st stop : ClaudeStreamState}
    (hnt : st.stopTriggered = false)
    (hb : ¬(0 < cfg.maxChars ∧ cfg.maxChars < (st.outputChars : Int) + st.textBuf.length))
    (hf : findFirstClaudeStopSequence st.textBuf cfg.stopSequences = none)
    (h : scanStep cfg st = Sum.inl stop) :
    (cfg.maxStopLen ≤ 1 ∧ st.textBuf = [] ∧ stop = st) ∨
    (cfg.maxStopLen ≤ 1 ∧ st.textBuf ≠ [] ∧
      stop = { emitTextDelta st.textBuf st with textBuf := [] }) ∨
    (1 < cfg.maxStopLen ∧ st.textBuf.length ≤ cfg.maxStopLen - 1 ∧ stop = st) := by
  unfold scanStep at h
  rw [if_neg (show ¬st.stopTriggered = true by simp [hnt]), if_neg hb] at h
  split at h
  · rename_i idx seq hfeq
    rw [hf] at hfeq
    exact absurd hfeq (by simp)
  · split at h
    · rename_i hms
      split at h
      · rename_i hemp
        injection h with h
        exact Or.inl ⟨hms, List.isEmpty_iff.mp hemp, h.symm⟩
      · rename_i hemp
        injection h with h
        exact Or.inr (Or.inl ⟨hms, by simpa [List.isEmpty_iff] using hemp, h.symm⟩)
    · rename_i hms
      split at h
      · rename_i hsmall
        injection h with h
        exact Or.inr (Or.inr ⟨by omega, hsmall, h.symm⟩)
      · exact absurd h (by simp)

/-! Field behaviour of the emission helpers. -/

@[simp]
theorem emittedTextOf_nil : emittedTextOf [] = [] := rfl

@[simp]
theorem emittedTextOf_append (a b : List ClaudeEvent) :
    emittedTextOf (a ++ b) = emittedTextOf a ++ emittedTextOf b := by
  simp [emittedTextOf]

@[simp]
theorem emittedTextOf_singleton (e : ClaudeEvent) :
    emittedTextOf [e] = deltaTextOf e := by
  simp [emittedTextOf]

@[simp]
theorem emittedTextOf_cons (e : ClaudeEvent) (es : List ClaudeEvent) :
    emittedTextOf (e :: es) = deltaTextOf e ++ emittedTextOf es := by
  simp [emittedTextOf]

@[simp]
theorem emitTextDelta_textBuf (d : GoStr) (st : ClaudeStreamState) :
    (emitTextDelta d st).textBuf = st.textBuf := by
  unfold emitTextDelta startTextBlock
  split
  · rfl
  · split <;> rfl

@[simp]
theorem emitTextDelta_stopTriggered (d : GoStr) (st : ClaudeStreamState) :
    (emitTextDelta d st).stopTriggered = st.stopTriggered := by
  unfold emitTextDelta startTextBlock
  split
  · rfl
  · split <;> rfl

@[simp]
theorem emitTextDelta_stopReason (d : GoStr) (st : ClaudeStreamState) :
    (emitTextDelta d st).stopReason = st.stopReason := by
  unfold emitTextDelta startTextBlock
  split
  · rfl
  · split <;> rfl

@[simp]
theorem emitTextDelta_stopSequence (d : GoStr) (st : ClaudeStreamState) :
    (emitTextDelta d st).stopSequence = st.stopSequence := by
  unfold emitTextDelta startTextBlock
  split
  · rfl
  · split <;> rfl

@[simp]
theorem emitTextDelta_cancelled (d : GoStr) (st : ClaudeStreamState) :
    (emitTextDelta d st).cancelled = st.cancelled := by
  unfold emitTextDelta startTextBlock
  split
  · rfl
  · split <;> rfl

@[simp]
theorem emitTextDelta_hasToolUse (d : GoStr) (st : ClaudeStreamState) :
    (emitTextDelta d st).hasToolUse = st.hasToolUse := by
  unfold emitTextDelta startTextBlock
  split
  · rfl
  · split <;> rfl

@[simp]
theorem emitTextDelta_outputChars (d : GoStr) (st : ClaudeStreamState) :
    (emitTextDelta d st).outputChars = st.outputChars + d.length := by
  unfold emitTextDelta startTextBlock
  split
  · rename_i he
    simp [List.isEmpty_iff.mp he]
  · split <;> rfl

@[simp]
theorem emitTextDelta_emittedText (d : GoStr) (st : ClaudeStreamState) :
    emittedTextOf (emitTextDelta d st).events = emittedTextOf st.events ++ d := by
  unfold emitTextDelta startTextBlock
  split
  · rename_i he
    simp [List.isEmpty_iff.mp he]
  · split <;> simp [emittedTextOf, deltaTextOf]

theorem emitTextDelta_events_mono (d : GoStr) (st : ClaudeStreamState) :
    ∃ tail, (emitTextDelta d st).events = st.events ++ tail := by
  unfold emitTextDelta startTextBlock
  split
  · exact ⟨[], by simp⟩
  · split
    · exact ⟨_, rfl⟩
    · exact ⟨[ClaudeEvent.blockStartText st.blockIndex [],
        ClaudeEvent.blockDeltaText st.blockIndex d], by simp⟩

theorem emitTextDelta_emittedContentBlock (d : GoStr) (st : ClaudeStreamState)
    (h : st.emittedContentBlock = true) :
    (emitTextDelta d st).emittedContentBlock = true := by
  unfold emitTextDelta startTextBlock
  split
  · exact h
  · split <;> simp [h]

/-! Behaviour of the scan loop. -/

/-- When the output budget is exceeded, `scanStep` truncates and stops. -/
theorem scanStep_budget_eq {cfg : ClaudeStreamConfig} {st : ClaudeStreamState}
    (hnt : st.stopTriggered = false)
    (hb : 0 < cfg.maxChars ∧ cfg.maxChars < (st.outputChars : Int) + st.textBuf.length) :
    scanStep cfg st = Sum.inl
      { (if 0 < cfg.maxChars - (st.outputChars : Int) then
          emitTextDelta (st.textBuf.take (cfg.maxChars - (st.outputChars : Int)).toNat) st
        else st) with
        textBuf := []
        stopReason := goStr "max_tokens"
        stopSequence := none
        stopTriggered := true
        cancelled := true } := by
  unfold scanStep
  rw [if_neg (by simp [hnt]), if_pos hb]

/-- When a stop sequence is found, `scanStep` emits the prefix and stops. -/
theorem scanStep_found_eq {cfg : ClaudeStreamConfig} {st : ClaudeStreamState}
    {idx : Nat} {seq : GoStr} (hnt : st.stopTriggered = false)
    (hb : ¬(0 < cfg.maxChars ∧ cfg.maxChars < (st.outputChars : Int) + st.textBuf.length))
    (hf : findFirstClaudeStopSequence st.textBuf cfg.stopSequences = some (idx, seq)) :
    scanStep cfg st = Sum.inl
      { (if 0 < idx then emitTextDelta (st.textBuf.take idx) st else st) with
        textBuf := []
        stopReason := goStr "stop_sequence"
        stopSequence := some seq
        stopTriggered := true
        cancelled := true } := by
  unfold scanStep
  rw [if_neg (by simp [hnt]), if_neg hb, hf]

/-- Field-level description of `scanLoop` when a stop sequence is found in the
pending buffer (with no budget overflow). -/
theorem scanLoop_found {cfg : ClaudeStreamConfig} {st : ClaudeStreamState}
    {idx : Nat} {seq : GoStr} (hnt : st.stopTriggered = false)
    (hb : ¬(0 < cfg.maxChars ∧ cfg.maxChars < (st.outputChars : Int) + st.textBuf.length))
    (hf : findFirstClaudeStopSequence st.textBuf cfg.stopSequences = some (idx, seq)) :
    emittedTextOf (scanLoop cfg st).events = emittedTextOf st.events ++ st.textBuf.take idx ∧
    (scanLoop cfg st).textBuf = [] ∧
    (scanLoop cfg st).stopTriggered = true ∧
    (scanLoop cfg st).stopReason = goStr "stop_sequence" ∧
    (scanLoop cfg st).stopSequence = some seq ∧
    (scanLoop cfg st).cancelled = true ∧
    (scanLoop cfg st).hasToolUse = st.hasToolUse := by
  rw [scanLoop_eq, scanStep_found_eq hnt hb hf]
  by_cases hidx : 0 < idx
  · rw [if_pos hidx]
    refine ⟨by simp, rfl, rfl, rfl, rfl, rfl, by simp⟩
  · rw [if_neg hidx]
    have : idx = 0 := by omega
    subst this
    refine ⟨by simp, rfl, rfl, rfl, rfl, rfl, by simp⟩

/-- Field-level description of `scanLoop` when the budget overflows. -/
theorem scanLoop_budget {cfg : ClaudeStreamConfig} {st : ClaudeStreamState}
    (hnt : st.stopTriggered = false)
    (hb : 0 < cfg.maxChars ∧ cfg.maxChars < (st.outputChars : Int) + st.textBuf.length) :
    emittedTextOf (scanLoop cfg st).events
        = emittedTextOf st.events ++ st.textBuf.take (cfg.maxChars - (st.outputChars : Int)).toNat ∧
    (scanLoop cfg st).textBuf = [] ∧
    (scanLoop cfg st).stopTriggered = true ∧
    (scanLoop cfg st).stopReason = goStr "max_tokens" ∧
    (scanLoop cfg st).stopSequence = none ∧
    (scanLoop cfg st).cancelled = true ∧
    (scanLoop cfg st).hasToolUse = st.hasToolUse := by
  rw [scanLoop_eq, scanStep_budget_eq hnt hb]
  by_cases hall : 0 < cfg.maxChars - (st.outputChars : Int)
  · rw [if_pos hall]
    refine ⟨by simp, rfl, rfl, rfl, rfl, rfl, by simp⟩
  · rw [if_neg hall]
    have hz : (cfg.maxChars - (st.outputChars : Int)).toNat = 0 := by omega
    rw [hz]
    refine ⟨by simp, rfl, rfl, rfl, rfl, rfl, by simp⟩

/-- Field-level description of `scanLoop` when no stop sequence occurs in the
pending buffer and no budget is configured: text is forwarded except for a
tail of fewer than `maxStopLen` characters, and no stop condition fires. -/
theorem scanLoop_none_result {cfg : ClaudeStreamConfig} :
    ∀ (st : ClaudeStreamState), st.stopTriggered = false → cfg.maxChars = 0 →
      findFirstClaudeStopSequence st.textBuf cfg.stopSequences = none →
      emittedTextOf (scanLoop cfg st).events ++ (scanLoop cfg st).textBuf
          = emittedTextOf st.events ++ st.textBuf ∧
      (scanLoop cfg st).stopTriggered = false ∧
      (scanLoop cfg st).stopReason = st.stopReason ∧
      (scanLoop cfg st).stopSequence = st.stopSequence ∧
      (scanLoop cfg st).cancelled = st.cancelled ∧
      (scanLoop cfg st).hasToolUse = st.hasToolUse ∧
      (∃ k, (scanLoop cfg st).textBuf = st.textBuf.drop k) ∧
      (scanLoop cfg st = st ∨ (scanLoop cfg st).textBuf.length = cfg.maxStopLen - 1) := by
  suffices H : ∀ n (st : ClaudeStreamState), st.textBuf.length ≤ n →
      st.stopTriggered = false → cfg.maxChars = 0 →
      findFirstClaudeStopSequence st.textBuf cfg.stopSequences = none →
      emittedTextOf (scanLoop cfg st).events ++ (scanLoop cfg st).textBuf
          = emittedTextOf st.events ++ st.textBuf ∧
      (scanLoop cfg st).stopTriggered = false ∧
      (scanLoop cfg st).stopReason = st.stopReason ∧
      (scanLoop cfg st).stopSequence = st.stopSequence ∧
      (scanLoop cfg st).cancelled = st.cancelled ∧
      (scanLoop cfg st).hasToolUse = st.hasToolUse ∧
      (∃ k, (scanLoop cfg st).textBuf = st.textBuf.drop k) ∧
      (scanLoop cfg st = st ∨ (scanLoop cfg st).textBuf.length = cfg.maxStopLen - 1) by
    intro st h1 h2 h3
    exact H st.textBuf.length st le_rfl h1 h2 h3
  intro n
  induction n with
  | zero =>
    intro st hlen hnt hb0 hf
    have hb : ¬(0 < cfg.maxChars ∧ cfg.maxChars < (st.outputChars : Int) + st.textBuf.length) := by
      simp [hb0]
    cases hstep : scanStep cfg st with
    | inl stop =>
      rw [scanLoop_of_inl hstep]
      rcases scanStep_inl_none_inv hnt hb hf hstep with
        ⟨hms, hemp, rfl⟩ | ⟨hms, hemp, rfl⟩ | ⟨hms, hsmall, rfl⟩
      · exact ⟨rfl, hnt, rfl, rfl, rfl, rfl, ⟨0, by simp⟩, Or.inl rfl⟩
      · refine ⟨by simp, by simp [hnt], by simp, by simp, by simp, by simp,
          ⟨st.textBuf.length, by simp⟩, Or.inr ?_⟩
        simp
        omega
      · exact ⟨rfl, hnt, rfl, rfl, rfl, rfl, ⟨0, by simp⟩, Or.inl rfl⟩
    | inr next =>
      have := (scanStep_inr_textBuf hstep).2
      omega
  | succ n ih =>
    intro st hlen hnt hb0 hf
    have hb : ¬(0 < cfg.maxChars ∧ cfg.maxChars < (st.outputChars : Int) + st.textBuf.length) := by
      simp [hb0]
    cases hstep : scanStep cfg st with
    | inl stop =>
      rw [scanLoop_of_inl hstep]
      rcases scanStep_inl_none_inv hnt hb hf hstep with
        ⟨hms, hemp, rfl⟩ | ⟨hms, hemp, rfl⟩ | ⟨hms, hsmall, rfl⟩
      · exact ⟨rfl, hnt, rfl, rfl, rfl, rfl, ⟨0, by simp⟩, Or.inl rfl⟩
      · refine ⟨by simp, by simp [hnt], by simp, by simp, by simp, by simp,
          ⟨st.textBuf.length, by simp⟩, Or.inr ?_⟩
        simp
        omega
      · exact ⟨rfl, hnt, rfl, rfl, rfl, rfl, ⟨0, by simp⟩, Or.inl rfl⟩
    | inr next =>
      rw [scanLoop_of_inr hstep]
      obtain ⟨-, -, -, hnexteq⟩ := scanStep_inr_inv hstep
      obtain ⟨hlen1, hlen2⟩ := scanStep_inr_textBuf hstep
      have hntb : next.textBuf
          = st.textBuf.drop (st.textBuf.length - (cfg.maxStopLen - 1)) := by
        rw [hnexteq]
      have hnev : emittedTextOf next.events
          = emittedTextOf st.events
            ++ st.textBuf.take (st.textBuf.length - (cfg.maxStopLen - 1)) := by
        rw [hnexteq]
        simp
      have hnext_nt : next.stopTriggered = false := by
        rw [hnexteq]
        simp [hnt]
      have hnext_f :
          findFirstClaudeStopSequence next.textBuf cfg.stopSequences = none := by
        rw [hntb]
        exact findFirst_none_drop hf
      obtain ⟨h1, h2, h3, h4, h5, h6, ⟨k, hk⟩, h8⟩ :=
        ih next (by omega) hnext_nt hb0 hnext_f
      refine ⟨?_, h2, ?_, ?_, ?_, ?_, ?_, ?_⟩
      · rw [h1, hnev, hntb, List.append_assoc, List.take_append_drop]
      · rw [h3, hnexteq]; simp
      · rw [h4, hnexteq]; simp
      · rw [h5, hnexteq]; simp
      · rw [h6, hnexteq]; simp
      · refine ⟨st.textBuf.length - (cfg.maxStopLen - 1) + k, ?_⟩
        rw [hk, hntb, List.drop_drop, Nat.add_comm]
      · right
        rcases h8 with he | hl
        · rw [he, hntb]
          simp only [List.length_drop]
          omega
        · exact hl

/-- After any `scanLoop` pass from a non-stopped state, the pending buffer is
empty when `maxStopLen ≤ 1` and shorter than `maxStopLen` otherwise. -/
theorem scanLoop_post {cfg : ClaudeStreamConfig} :
    ∀ (st : ClaudeStreamState), st.stopTriggered = false →
      ((scanLoop cfg st).textBuf = [] ∨
        (1 < cfg.maxStopLen ∧ (scanLoop cfg st).textBuf.length ≤ cfg.maxStopLen - 1)) := by
  suffices H : ∀ n (st : ClaudeStreamState), st.textBuf.length ≤ n →
      st.stopTriggered = false →
      ((scanLoop cfg st).textBuf = [] ∨
        (1 < cfg.maxStopLen ∧ (scanLoop cfg st).textBuf.length ≤ cfg.maxStopLen - 1)) by
    intro st h1
    exact H st.textBuf.length st le_rfl h1
  intro n
  induction n with
  | zero =>
    intro st hlen hnt
    rw [scanLoop_eq]
    cases hstep : scanStep cfg st with
    | inl stop =>
      have := scanStep_inl_textBuf hstep hnt
      rcases this with h | ⟨h1, h2⟩
      · exact Or.inl h
      · exact Or.inr ⟨h1, h2⟩
    | inr next =>
      have := (scanStep_inr_textBuf hstep).2
      omega
  | succ n ih =>
    intro st hlen hnt
    rw [scanLoop_eq]
    cases hstep : scanStep cfg st with
    | inl stop =>
      have := scanStep_inl_textBuf hstep hnt
      rcases this with h | ⟨h1, h2⟩
      · exact Or.inl h
      · exact Or.inr ⟨h1, h2⟩
    | inr next =>
      have hl := scanStep_inr_textBuf hstep
      have hnext_nt : next.stopTriggered = false := by
        have hinv := scanStep_inr_inv hstep
        rw [hinv.2.2.2]
        simp [hinv.1]
      exact ih next (by omega) hnext_nt

/-! Mid-level helpers for the stream translator proofs. -/

theorem maxStopLen_single (seq : GoStr) :
    maxClaudeStopSequenceLen [seq] = seq.length := by
  unfold maxClaudeStopSequenceLen
  simp only [List.foldl_cons, List.foldl_nil]
  split <;> omega

theorem maxChars_of_nonpos {cfg : ClaudeStreamConfig} (h : cfg.maxTokens ≤ 0) :
    cfg.maxChars = 0 := by
  unfold ClaudeStreamConfig.maxChars
  rw [if_neg (by omega)]

theorem emitTextSafe_stopped {cfg : ClaudeStreamConfig} {d : GoStr} {st : ClaudeStreamState}
    (h : st.stopTriggered = true) : emitTextSafe cfg d st = st := by
  unfold emitTextSafe
  rw [if_pos (by simp [h])]

theorem emitTextSafe_nil {cfg : ClaudeStreamConfig} {st : ClaudeStreamState} :
    emitTextSafe cfg [] st = st := by
  unfold emitTextSafe
  rw [if_pos (by simp)]

theorem emitTextSafe_eq {cfg : ClaudeStreamConfig} {d : GoStr} {st : ClaudeStreamState}
    (hd : d ≠ []) (hnt : st.stopTriggered = false) :
    emitTextSafe cfg d st = scanLoop cfg { st with textBuf := st.textBuf ++ d } := by
  unfold emitTextSafe
  rw [if_neg (by simp [hd, hnt])]

theorem processIncrements_stopped {cfg : ClaudeStreamConfig} {incs : List GoStr}
    {st : ClaudeStreamState} (h : st.stopTriggered = true) :
    processIncrements cfg incs st = st := by
  cases incs with
  | nil => rfl
  | cons d rest =>
    simp only [processIncrements]
    rw [emitTextSafe_stopped h, if_pos h]

theorem processIncrements_cons {cfg : ClaudeStreamConfig} {d : GoStr} {rest : List GoStr}
    {st : ClaudeStreamState} :
    processIncrements cfg (d :: rest) st =
      (if (emitTextSafe cfg d st).stopTriggered then emitTextSafe cfg d st
       else processIncrements cfg rest (emitTextSafe cfg d st)) := rfl

@[simp]
theorem closeTextBlock_emittedText (st : ClaudeStreamState) :
    emittedTextOf (closeTextBlock st).events = emittedTextOf st.events := by
  unfold closeTextBlock
  split <;> simp [deltaTextOf]

@[simp]
theorem closeTextBlock_stopReason (st : ClaudeStreamState) :
    (closeTextBlock st).stopReason = st.stopReason := by
  unfold closeTextBlock
  split <;> rfl

@[simp]
theorem closeTextBlock_stopSequence (st : ClaudeStreamState) :
    (closeTextBlock st).stopSequence = st.stopSequence := by
  unfold closeTextBlock
  split <;> rfl

@[simp]
theorem closeTextBlock_cancelled (st : ClaudeStreamState) :
    (closeTextBlock st).cancelled = st.cancelled := by
  unfold closeTextBlock
  split <;> rfl

@[simp]
theorem closeTextBlock_hasToolUse (st : ClaudeStreamState) :
    (closeTextBlock st).hasToolUse = st.hasToolUse := by
  unfold closeTextBlock
  split <;> rfl

@[simp]
theorem closeTextBlock_stopTriggered (st : ClaudeStreamState) :
    (closeTextBlock st).stopTriggered = st.stopTriggered := by
  unfold closeTextBlock
  split <;> rfl

@[simp]
theorem closeTextBlock_emittedContentBlock (st : ClaudeStreamState) :
    (closeTextBlock st).emittedContentBlock = st.emittedContentBlock := by
  unfold closeTextBlock
  split <;> rfl

@[simp]
theorem closeTextBlock_outputChars (st : ClaudeStreamState) :
    (closeTextBlock st).outputChars = st.outputChars := by
  unfold closeTextBlock
  split <;> rfl

/-- Core boundary argument: if the processed prefix `emitted ++ textBuf` holds
no occurrence of `seq`, the retained tail `textBuf` is `seq.length - 1` long
(or nothing was emitted), and the extended buffer `textBuf ++ d` holds no
occurrence either, then the whole extended prefix holds none. -/
theorem no_occurrence_extend {emitted textBuf d seq : GoStr} (hne : seq ≠ [])
    (hP : goIndex (emitted ++ textBuf) seq = none)
    (hinv : emitted = [] ∨ textBuf.length = seq.length - 1)
    (hgB : goIndex (textBuf ++ d) seq = none) :
    goIndex (emitted ++ (textBuf ++ d)) seq = none := by
  cases hg : goIndex (emitted ++ (textBuf ++ d)) seq with
  | none => rfl
  | some j =>
    exfalso
    have hocc := goIndex_some_occurs hg
    rcases le_or_lt emitted.length j with hj | hj
    · exact goIndex_none_not_occurs hgB _ (occursAt_in_suffix hocc hj)
    · have hfit := occursAt_fits hne hocc
      simp only [List.length_append] at hfit
      rcases le_or_lt (j + seq.length) (emitted.length + textBuf.length) with hf2 | hf2
      · have hocc2 : occursAt (emitted ++ textBuf) seq j := by
          rw [← List.append_assoc] at hocc
          exact occursAt_of_fits hocc (by simp; omega)
        exact goIndex_none_not_occurs hP _ hocc2
      · rcases hinv with he | hlen
        · rw [he] at hj
          simp at hj
        · have hs : 1 ≤ seq.length := List.length_pos.mpr hne
          omega

/-- Core boundary argument, found case: the first occurrence the scanner sees
in its buffer is the first occurrence of the whole stream. -/
theorem first_occurrence_position {emitted textBuf d seq : GoStr} {i : Nat} (hne : seq ≠ [])
    (hP : goIndex (emitted ++ textBuf) seq = none)
    (hinv : emitted = [] ∨ textBuf.length = seq.length - 1)
    (hgB : goIndex (textBuf ++ d) seq = some i) (R : GoStr) :
    goIndex (emitted ++ (textBuf ++ d) ++ R) seq = some (emitted.length + i) := by
  have hoccB := goIndex_some_occurs hgB
  have hfitB := occursAt_fits hne hoccB
  simp only [List.length_append] at hfitB
  apply goIndex_eq_some_intro
  · exact occursAt_append_left (occursAt_append_right_iff.mpr hoccB)
  · intro j hj hocc
    have hfit := occursAt_fits hne hocc
    simp only [List.length_append] at hfit
    rcases le_or_lt (j + seq.length) (emitted.length + (textBuf.length + d.length)) with hf2 | hf2
    · have hocc2 : occursAt (emitted ++ (textBuf ++ d)) seq j :=
        occursAt_of_fits hocc (by simp; omega)
      rcases le_or_lt emitted.length j with hj2 | hj2
      · have hoccB2 : occursAt (textBuf ++ d) seq (j - emitted.length) :=
          occursAt_in_suffix hocc2 hj2
        exact goIndex_some_min hgB _ (by omega) hoccB2
      · rcases le_or_lt (j + seq.length) (emitted.length + textBuf.length) with hf3 | hf3
        · have hocc3 : occursAt (emitted ++ textBuf) seq j := by
            rw [← List.append_assoc] at hocc2
            exact occursAt_of_fits hocc2 (by simp; omega)
          exact goIndex_none_not_occurs hP _ hocc3
        · rcases hinv with he | hlen
          · rw [he] at hj2
            simp at hj2
          · have hs : 1 ≤ seq.length := List.length_pos.mpr hne
            omega
    · omega

theorem maxStopLen_eq {cfg : ClaudeStreamConfig} {seq : GoStr}
    (hseq : cfg.stopSequences = [seq]) : cfg.maxStopLen = seq.length := by
  unfold ClaudeStreamConfig.maxStopLen
  rw [hseq, maxStopLen_single]

/-- Invariant propagation for the single-stop-sequence receive loop when the
full stream holds no occurrence of the stop sequence. -/
theorem processIncrements_no_stop {cfg : ClaudeStreamConfig} {seq : GoStr}
    (hseq : cfg.stopSequences = [seq]) (hne : seq ≠ []) (hb0 : cfg.maxChars = 0) :
    ∀ (incs : List GoStr) (st : ClaudeStreamState),
      st.stopTriggered = false →
      goIndex (emittedTextOf st.events ++ st.textBuf ++ incs.flatten) seq = none →
      (emittedTextOf st.events = [] ∨ st.textBuf.length = seq.length - 1) →
      emittedTextOf (processIncrements cfg incs st).events
          ++ (processIncrements cfg incs st).textBuf
        = emittedTextOf st.events ++ st.textBuf ++ incs.flatten ∧
      (processIncrements cfg incs st).stopTriggered = false ∧
      (processIncrements cfg incs st).stopReason = st.stopReason ∧
      (processIncrements cfg incs st).stopSequence = st.stopSequence ∧
      (processIncrements cfg incs st).cancelled = st.cancelled ∧
      (processIncrements cfg incs st).hasToolUse = st.hasToolUse := by
  intro incs
  induction incs with
  | nil =>
    intro st hnt hT hinv
    exact ⟨by simp [processIncrements], hnt, rfl, rfl, rfl, rfl⟩
  | cons d rest ih =>
    intro st hnt hT hinv
    have hP : goIndex (emittedTextOf st.events ++ st.textBuf) seq = none := by
      cases hg : goIndex (emittedTextOf st.events ++ st.textBuf) seq with
      | none => rfl
      | some j =>
        exact absurd (occursAt_append_left (goIndex_some_occurs hg))
          (goIndex_none_not_occurs hT j)
    by_cases hd : d = []
    · subst hd
      rw [processIncrements_cons, emitTextSafe_nil, if_neg (by simp [hnt])]
      apply ih st hnt ?_ hinv
      simpa using hT
    · have hT' : goIndex (emittedTextOf st.events ++ (st.textBuf ++ d) ++ rest.flatten) seq
          = none := by
        have he : emittedTextOf st.events ++ (st.textBuf ++ d) ++ rest.flatten
            = emittedTextOf st.events ++ st.textBuf ++ (d :: rest).flatten := by
          simp [List.append_assoc]
        rw [he]
        exact hT
      have hgB : goIndex (st.textBuf ++ d) seq = none := by
        cases hg : goIndex (st.textBuf ++ d) seq with
        | none => rfl
        | some i =>
          have := first_occurrence_position hne hP hinv hg rest.flatten
          rw [hT'] at this
          exact absurd this (by simp)
      have hfind : findFirstClaudeStopSequence
          ({ st with textBuf := st.textBuf ++ d } : ClaudeStreamState).textBuf
          cfg.stopSequences = none := by
        show findFirstClaudeStopSequence (st.textBuf ++ d) cfg.stopSequences = none
        rw [hseq, findFirst_single hne, hgB]
        rfl
      rw [processIncrements_cons, emitTextSafe_eq hd hnt]
      obtain ⟨h1, h2, h3, h4, h5, h6, ⟨k, hk⟩, h8⟩ :=
        scanLoop_none_result ({ st with textBuf := st.textBuf ++ d }) hnt hb0 hfind
      rw [if_neg (by simp [h2])]
      have hst1P : emittedTextOf (scanLoop cfg { st with textBuf := st.textBuf ++ d }).events
          ++ (scanLoop cfg { st with textBuf := st.textBuf ++ d }).textBuf
          = emittedTextOf st.events ++ (st.textBuf ++ d) := h1
      have hT1 : goIndex
          (emittedTextOf (scanLoop cfg { st with textBuf := st.textBuf ++ d }).events
            ++ (scanLoop cfg { st with textBuf := st.textBuf ++ d }).textBuf
            ++ rest.flatten) seq = none := by
        rw [List.append_assoc, ← List.append_assoc _ _ rest.flatten]
        rw [show emittedTextOf (scanLoop cfg { st with textBuf := st.textBuf ++ d }).events
            ++ (scanLoop cfg { st with textBuf := st.textBuf ++ d }).textBuf
            = emittedTextOf st.events ++ (st.textBuf ++ d) from hst1P]
        exact hT'
      have hinv1 : emittedTextOf (scanLoop cfg { st with textBuf := st.textBuf ++ d }).events = []
          ∨ (scanLoop cfg { st with textBuf := st.textBuf ++ d }).textBuf.length
              = seq.length - 1 := by
        rcases h8 with he | hl
        · rcases hinv with hemL | hemR
          · left
            rw [he]
            simpa using hemL
          · exfalso
            have hpost := @scanLoop_post cfg ({ st with textBuf := st.textBuf ++ d }) hnt
            have hms := maxStopLen_eq hseq
            rcases hpost with hz | ⟨hms1, hlen1⟩
            · rw [he] at hz
              simp only [List.append_eq_nil] at hz
              exact hd hz.2
            · rw [he] at hlen1
              simp only [List.length_append] at hlen1
              have hdl : 0 < d.length := List.length_pos.mpr hd
              omega
        · right
          rw [hl, maxStopLen_eq hseq]
      obtain ⟨g1, g2, g3, g4, g5, g6⟩ := ih _ h2 hT1 hinv1
      refine ⟨?_, g2, ?_, ?_, ?_, ?_⟩
      · rw [g1, List.append_assoc, ← List.append_assoc _ _ rest.flatten, hst1P]
        simp [List.append_assoc]
      · rw [g3, h3]
      · rw [g4, h4]
      · rw [g5, h5]
      · rw [g6, h6]

/-- When the stream's concatenated text holds an occurrence of the single
stop sequence, the receive loop stops exactly at its first occurrence. -/
theorem processIncrements_stop_hit {cfg : ClaudeStreamConfig} {seq : GoStr}
    (hseq : cfg.stopSequences = [seq]) (hne : seq ≠ []) (hb0 : cfg.maxChars = 0) :
    ∀ (incs : List GoStr) (st : ClaudeStreamState) (idx : Nat),
      st.stopTriggered = false →
      goIndex (emittedTextOf st.events ++ st.textBuf) seq = none →
      (emittedTextOf st.events = [] ∨ st.textBuf.length = seq.length - 1) →
      goIndex (emittedTextOf st.events ++ st.textBuf ++ incs.flatten) seq = some idx →
      emittedTextOf (processIncrements cfg incs st).events
          = (emittedTextOf st.events ++ st.textBuf ++ incs.flatten).take idx ∧
      (processIncrements cfg incs st).textBuf = [] ∧
      (processIncrements cfg incs st).stopTriggered = true ∧
      (processIncrements cfg incs st).stopReason = goStr "stop_sequence" ∧
      (processIncrements cfg incs st).stopSequence = some seq ∧
      (processIncrements cfg incs st).cancelled = true ∧
      (processIncrements cfg incs st).hasToolUse = st.hasToolUse := by
  intro incs
  induction incs with
  | nil =>
    intro st idx hnt hP hinv hTidx
    rw [List.flatten_nil, List.append_nil, hP] at hTidx
    exact absurd hTidx (by simp)
  | cons d rest ih =>
    intro st idx hnt hP hinv hTidx
    by_cases hd : d = []
    · subst hd
      rw [processIncrements_cons, emitTextSafe_nil, if_neg (by simp [hnt])]
      have h := ih st idx hnt hP hinv (by simpa using hTidx)
      simpa using h
    · cases hgB : goIndex (st.textBuf ++ d) seq with
      | some i =>
        have hpos := first_occurrence_position hne hP hinv hgB rest.flatten
        have hidx : idx = (emittedTextOf st.events).length + i := by
          have he : emittedTextOf st.events ++ (st.textBuf ++ d) ++ rest.flatten
              = emittedTextOf st.events ++ st.textBuf ++ (d :: rest).flatten := by
            simp [List.append_assoc]
          rw [he, hTidx] at hpos
          exact Option.some.inj hpos
        have hfind : findFirstClaudeStopSequence
            ({ st with textBuf := st.textBuf ++ d } : ClaudeStreamState).textBuf
            cfg.stopSequences = some (i, seq) := by
          show findFirstClaudeStopSequence (st.textBuf ++ d) cfg.stopSequences = some (i, seq)
          rw [hseq, findFirst_single hne, hgB]
          rfl
        rw [processIncrements_cons, emitTextSafe_eq hd hnt]
        obtain ⟨f1, f2, f3, f4, f5, f6, f7⟩ :=
          @scanLoop_found cfg ({ st with textBuf := st.textBuf ++ d }) i seq hnt
            (by simp [hb0]) hfind
        rw [if_pos f3]
        have hfitB := occursAt_fits hne (goIndex_some_occurs hgB)
        simp only [List.length_append] at hfitB
        refine ⟨?_, f2, f3, f4, f5, f6, f7⟩
        rw [f1, hidx]
        show emittedTextOf st.events ++ (st.textBuf ++ d).take i
            = (emittedTextOf st.events ++ st.textBuf ++ (d :: rest).flatten).take
                ((emittedTextOf st.events).length + i)
        have he2 : emittedTextOf st.events ++ st.textBuf ++ (d :: rest).flatten
            = (emittedTextOf st.events ++ (st.textBuf ++ d)) ++ rest.flatten := by
          simp [List.append_assoc]
        rw [he2]
        have hcut : ((emittedTextOf st.events ++ (st.textBuf ++ d)) ++ rest.flatten).take
              ((emittedTextOf st.events).length + i)
            = (emittedTextOf st.events ++ (st.textBuf ++ d)).take
              ((emittedTextOf st.events).length + i) :=
          List.take_append_of_le_length (by simp; omega)
        have hsplit : (emittedTextOf st.events ++ (st.textBuf ++ d)).take
              ((emittedTextOf st.events).length + i)
            = emittedTextOf st.events ++ (st.textBuf ++ d).take i := by
          simp [List.take_append]
        rw [hcut, hsplit]
      | none =>
        have hT' : goIndex (emittedTextOf st.events ++ (st.textBuf ++ d) ++ rest.flatten) seq
            = some idx := by
          have he : emittedTextOf st.events ++ (st.textBuf ++ d) ++ rest.flatten
              = emittedTextOf st.events ++ st.textBuf ++ (d :: rest).flatten := by
            simp [List.append_assoc]
          rw [he]
          exact hTidx
        have hfind : findFirstClaudeStopSequence
            ({ st with textBuf := st.textBuf ++ d } : ClaudeStreamState).textBuf
            cfg.stopSequences = none := by
          show findFirstClaudeStopSequence (st.textBuf ++ d) cfg.stopSequences = none
          rw [hseq, findFirst_single hne, hgB]
          rfl
        rw [processIncrements_cons, emitTextSafe_eq hd hnt]
        obtain ⟨h1, h2, h3, h4, h5, h6, ⟨k, hk⟩, h8⟩ :=
          scanLoop_none_result ({ st with textBuf := st.textBuf ++ d }) hnt hb0 hfind
        rw [if_neg (by simp [h2])]
        have hst1P : emittedTextOf (scanLoop cfg { st with textBuf := st.textBuf ++ d }).events
            ++ (scanLoop cfg { st with textBuf := st.textBuf ++ d }).textBuf
            = emittedTextOf st.events ++ (st.textBuf ++ d) := h1
        have hP1 : goIndex
            (emittedTextOf (scanLoop cfg { st with textBuf := st.textBuf ++ d }).events
              ++ (scanLoop cfg { st with textBuf := st.textBuf ++ d }).textBuf) seq = none := by
          rw [hst1P]
          exact no_occurrence_extend hne hP hinv hgB
        have hinv1 : emittedTextOf (scanLoop cfg { st with textBuf := st.textBuf ++ d }).events = []
            ∨ (scanLoop cfg { st with textBuf := st.textBuf ++ d }).textBuf.length
                = seq.length - 1 := by
          rcases h8 with he | hl
          · rcases hinv with hemL | hemR
            · left
              rw [he]
              simpa using hemL
            · exfalso
              have hpost := @scanLoop_post cfg ({ st with textBuf := st.textBuf ++ d }) hnt
              rcases hpost with hz | ⟨hms1, hlen1⟩
              · rw [he] at hz
                simp only [List.append_eq_nil] at hz
                exact hd hz.2
              · rw [he] at hlen1
                simp only [List.length_append] at hlen1
                have hms := maxStopLen_eq hseq
                have hdl : 0 < d.length := List.length_pos.mpr hd
                omega
          · right
            rw [hl, maxStopLen_eq hseq]
        have hT1 : goIndex
            (emittedTextOf (scanLoop cfg { st with textBuf := st.textBuf ++ d }).events
              ++ (scanLoop cfg { st with textBuf := st.textBuf ++ d }).textBuf
              ++ rest.flatten) seq = some idx := by
          rw [List.append_assoc, ← List.append_assoc _ _ rest.flatten, hst1P]
          exact hT'
        obtain ⟨g1, g2, g3, g4, g5, g6, g7⟩ := ih _ idx h2 hP1 hinv1 hT1
        refine ⟨?_, g2, g3, g4, g5, g6, ?_⟩
        · rw [g1]
          congr 1
          rw [List.append_assoc, ← List.append_assoc _ _ rest.flatten, hst1P]
          simp [List.append_assoc]
        · rw [g7, h6]

/-! The budget (max_tokens) path, with no stop sequences configured. -/

theorem findFirst_no_seqs {cfg : ClaudeStreamConfig} (hseq : cfg.stopSequences = [])
    (s : GoStr) : findFirstClaudeStopSequence s cfg.stopSequences = none := by
  rw [hseq]
  unfold findFirstClaudeStopSequence
  simp

theorem maxStopLen_no_seqs {cfg : ClaudeStreamConfig} (hseq : cfg.stopSequences = []) :
    cfg.maxStopLen = 0 := by
  unfold ClaudeStreamConfig.maxStopLen
  rw [hseq]
  rfl

/-- With no stop sequences and the budget not yet hit, `scanLoop` forwards
the whole buffer. -/
theorem scanLoop_no_stops_under {cfg : ClaudeStreamConfig} {st : ClaudeStreamState}
    (hseq : cfg.stopSequences = []) (hnt : st.stopTriggered = false)
    (hb : ¬(0 < cfg.maxChars ∧ cfg.maxChars < (st.outputChars : Int) + st.textBuf.length)) :
    emittedTextOf (scanLoop cfg st).events = emittedTextOf st.events ++ st.textBuf ∧
    (scanLoop cfg st).textBuf = [] ∧
    (scanLoop cfg st).stopTriggered = false ∧
    (scanLoop cfg st).outputChars = st.outputChars + st.textBuf.length ∧
    (scanLoop cfg st).stopReason = st.stopReason ∧
    (scanLoop cfg st).stopSequence = st.stopSequence ∧
    (scanLoop cfg st).cancelled = st.cancelled ∧
    (scanLoop cfg st).hasToolUse = st.hasToolUse := by
  have hf := findFirst_no_seqs hseq st.textBuf
  cases hstep : scanStep cfg st with
  | inl stop =>
    rw [scanLoop_of_inl hstep]
    rcases scanStep_inl_none_inv hnt hb hf hstep with
      ⟨hms, hemp, rfl⟩ | ⟨hms, hemp, rfl⟩ | ⟨hms, hsmall, rfl⟩
    · exact ⟨by simp [hemp], hemp, hnt, by simp [hemp], rfl, rfl, rfl, rfl⟩
    · exact ⟨by simp, rfl, by simp [hnt], by simp, by simp, by simp, by simp, by simp⟩
    · rw [maxStopLen_no_seqs hseq] at hms
      omega
  | inr next =>
    obtain ⟨-, hms, -, -⟩ := scanStep_inr_inv hstep
    rw [maxStopLen_no_seqs hseq] at hms
    omega

/-- Budget induction, under-budget case: with no stop sequences and the whole
remaining stream fitting in the budget, everything is forwarded. -/
theorem processIncrements_budget_fits {cfg : ClaudeStreamConfig}
    (hseq : cfg.stopSequences = []) :
    ∀ (incs : List GoStr) (st : ClaudeStreamState),
      st.stopTriggered = false → st.textBuf = [] →
      ¬(0 < cfg.maxChars ∧ cfg.maxChars < (st.outputChars : Int) + incs.flatten.length) →
      emittedTextOf (processIncrements cfg incs st).events
          = emittedTextOf st.events ++ incs.flatten ∧
      (processIncrements cfg incs st).textBuf = [] ∧
      (processIncrements cfg incs st).stopTriggered = false ∧
      (processIncrements cfg incs st).outputChars = st.outputChars + incs.flatten.length ∧
      (processIncrements cfg incs st).stopReason = st.stopReason ∧
      (processIncrements cfg incs st).stopSequence = st.stopSequence ∧
      (processIncrements cfg incs st).cancelled = st.cancelled ∧
      (processIncrements cfg incs st).hasToolUse = st.hasToolUse := by
  intro incs
  induction incs with
  | nil =>
    intro st hnt hbuf _
    exact ⟨by simp [processIncrements], hbuf, hnt, by simp [processIncrements], rfl, rfl, rfl, rfl⟩
  | cons d rest ih =>
    intro st hnt hbuf hb
    by_cases hd : d = []
    · subst hd
      rw [processIncrements_cons, emitTextSafe_nil, if_neg (by simp [hnt])]
      have h := ih st hnt hbuf (by simpa using hb)
      simpa using h
    · rw [processIncrements_cons, emitTextSafe_eq hd hnt]
      have hb1 : ¬(0 < cfg.maxChars ∧ cfg.maxChars
          < ((({ st with textBuf := st.textBuf ++ d } : ClaudeStreamState).outputChars : Int)
            + ({ st with textBuf := st.textBuf ++ d } : ClaudeStreamState).textBuf.length)) := by
        show ¬(0 < cfg.maxChars ∧ cfg.maxChars
          < ((st.outputChars : Int) + (st.textBuf ++ d).length))
        simp only [List.length_append, hbuf]
        simp only [List.flatten_cons, List.length_append] at hb
        rintro ⟨hc1, hc2⟩
        apply hb
        refine ⟨hc1, ?_⟩
        have hr : (0 : Int) ≤ rest.flatten.length := by positivity
        simp only [hbuf, List.length_nil, Nat.zero_add] at hc2
        push_cast at hc2 ⊢
        omega
      obtain ⟨s1, s2, s3, s4, s5, s6, s7, s8⟩ :=
        @scanLoop_no_stops_under cfg ({ st with textBuf := st.textBuf ++ d }) hseq hnt hb1
      rw [if_neg (by simp [s3])]
      have hout : (scanLoop cfg { st with textBuf := st.textBuf ++ d }).outputChars
          = st.outputChars + d.length := by
        rw [s4]
        simp [hbuf]
      obtain ⟨g1, g2, g3, g4, g5, g6, g7, g8⟩ := ih _ s3 s2 (by
        rw [hout]
        simp only [List.flatten_cons, List.length_append] at hb
        rintro ⟨hc1, hc2⟩
        apply hb
        refine ⟨hc1, ?_⟩
        push_cast at hc2 ⊢
        omega)
      refine ⟨?_, g2, g3, ?_, ?_, ?_, ?_, ?_⟩
      · rw [g1, s1]
        simp [hbuf]
      · rw [g4, hout]
        simp
        omega
      · rw [g5, s5]
      · rw [g6, s6]
      · rw [g7, s7]
      · rw [g8, s8]

theorem take_append_ge {α : Type} (d R : List α) (m : Nat) (h : d.length ≤ m) :
    (d ++ R).take m = d ++ R.take (m - d.length) := by
  rw [List.take_append_eq_append_take, List.take_of_length_le h]

/-- Budget induction, over-budget case: with no stop sequences and the stream
longer than the remaining budget, exactly the remaining budget is emitted and
the `max_tokens` stop fires. -/
theorem processIncrements_budget_exceeded {cfg : ClaudeStreamConfig}
    (hseq : cfg.stopSequences = []) (hpos : 0 < cfg.maxChars) :
    ∀ (incs : List GoStr) (st : ClaudeStreamState),
      st.stopTriggered = false → st.textBuf = [] →
      (st.outputChars : Int) ≤ cfg.maxChars →
      cfg.maxChars < (st.outputChars : Int) + incs.flatten.length →
      emittedTextOf (processIncrements cfg incs st).events
          = emittedTextOf st.events
            ++ incs.flatten.take (cfg.maxChars - (st.outputChars : Int)).toNat ∧
      (processIncrements cfg incs st).textBuf = [] ∧
      (processIncrements cfg incs st).stopTriggered = true ∧
      (processIncrements cfg incs st).stopReason = goStr "max_tokens" ∧
      (processIncrements cfg incs st).stopSequence = none ∧
      (processIncrements cfg incs st).cancelled = true ∧
      (processIncrements cfg incs st).hasToolUse = st.hasToolUse := by
  intro incs
  induction incs with
  | nil =>
    intro st hnt hbuf hle hover
    simp only [List.flatten_nil, List.length_nil] at hover
    omega
  | cons d rest ih =>
    intro st hnt hbuf hle hover
    by_cases hd : d = []
    · subst hd
      rw [processIncrements_cons, emitTextSafe_nil, if_neg (by simp [hnt])]
      have h := ih st hnt hbuf hle (by simpa using hover)
      simpa using h
    · rw [processIncrements_cons, emitTextSafe_eq hd hnt]
      by_cases hdover : cfg.maxChars < (st.outputChars : Int) + d.length
      · -- this very increment overflows the budget
        have hb1 : 0 < cfg.maxChars ∧ cfg.maxChars
            < ((({ st with textBuf := st.textBuf ++ d } : ClaudeStreamState).outputChars : Int)
              + ({ st with textBuf := st.textBuf ++ d } : ClaudeStreamState).textBuf.length) := by
          refine ⟨hpos, ?_⟩
          show cfg.maxChars < (st.outputChars : Int) + (st.textBuf ++ d).length
          simp only [List.length_append, hbuf, List.length_nil, Nat.zero_add]
          push_cast at hdover
          omega
        obtain ⟨b1, b2, b3, b4, b5, b6, b7⟩ :=
          @scanLoop_budget cfg ({ st with textBuf := st.textBuf ++ d }) hnt hb1
        rw [if_pos b3]
        refine ⟨?_, b2, b3, b4, b5, b6, b7⟩
        rw [b1, hbuf]
        simp only [List.nil_append, List.flatten_cons]
        congr 1
        rw [List.take_append_of_le_length]
        have : (cfg.maxChars - (st.outputChars : Int)).toNat ≤ d.length := by
          push_cast at hdover
          omega
        exact this
      · -- this increment still fits
        have hb1 : ¬(0 < cfg.maxChars ∧ cfg.maxChars
            < ((({ st with textBuf := st.textBuf ++ d } : ClaudeStreamState).outputChars : Int)
              + ({ st with textBuf := st.textBuf ++ d } : ClaudeStreamState).textBuf.length)) := by
          rintro ⟨-, hc⟩
          apply hdover
          revert hc
          show cfg.maxChars < (st.outputChars : Int) + (st.textBuf ++ d).length → _
          simp only [List.length_append, hbuf, List.length_nil, Nat.zero_add]
          exact id
        obtain ⟨s1, s2, s3, s4, s5, s6, s7, s8⟩ :=
          @scanLoop_no_stops_under cfg ({ st with textBuf := st.textBuf ++ d }) hseq hnt hb1
        rw [if_neg (by simp [s3])]
        have hout : (scanLoop cfg { st with textBuf := st.textBuf ++ d }).outputChars
            = st.outputChars + d.length := by
          rw [s4]
          simp [hbuf]
        obtain ⟨g1, g2, g3, g4, g5, g6, g7⟩ := ih _ s3 s2
          (by rw [hout]; omega)
          (by
            rw [hout]
            simp only [List.flatten_cons, List.length_append] at hover
            push_cast
            push_cast at hover
            omega)
        refine ⟨?_, g2, g3, g4, g5, g6, ?_⟩
        · rw [g1, s1, hout, hbuf]
          simp only [List.append_nil, List.nil_append, List.flatten_cons, List.append_assoc]
          congr 1
          rw [take_append_ge d rest.flatten (cfg.maxChars - (st.outputChars : Int)).toNat
            (by omega)]
          congr 1
          have hm2 : (cfg.maxChars - ((st.outputChars + d.length : Nat) : Int)).toNat
              = (cfg.maxChars - (st.outputChars : Int)).toNat - d.length := by
            push_cast at hdover ⊢
            omega
          rw [hm2]
        · rw [g7, s8]

/-! Content-block presence: once `emittedContentBlock` is set, some
`content_block_start` event has been written. -/

theorem emitTextDelta_Q {d : GoStr} {st : ClaudeStreamState}
    (hq : st.emittedContentBlock = true →
      ∃ i t, ClaudeEvent.blockStartText i t ∈ st.events) :
    (emitTextDelta d st).emittedContentBlock = true →
      ∃ i t, ClaudeEvent.blockStartText i t ∈ (emitTextDelta d st).events := by
  unfold emitTextDelta startTextBlock
  split
  · exact hq
  · split
    · intro hf
      obtain ⟨i, t, hm⟩ := hq hf
      exact ⟨i, t, List.mem_append_left _ hm⟩
    · intro _
      exact ⟨st.blockIndex, [], by simp⟩

theorem ite_emit_Q {c : Prop} [Decidable c] {d : GoStr} {st : ClaudeStreamState}
    (hq : st.emittedContentBlock = true →
      ∃ i t, ClaudeEvent.blockStartText i t ∈ st.events) :
    (if c then emitTextDelta d st else st).emittedContentBlock = true →
      ∃ i t, ClaudeEvent.blockStartText i t ∈ (if c then emitTextDelta d st else st).events := by
  split
  · exact emitTextDelta_Q hq
  · exact hq

theorem scanStep_Q {cfg : ClaudeStreamConfig} {st : ClaudeStreamState}
    (hq : st.emittedContentBlock = true →
      ∃ i t, ClaudeEvent.blockStartText i t ∈ st.events) :
    ∀ s, (scanStep cfg st = Sum.inl s ∨ scanStep cfg st = Sum.inr s) →
      (s.emittedContentBlock = true → ∃ i t, ClaudeEvent.blockStartText i t ∈ s.events) := by
  intro s hs
  rcases hs with h | h <;>
  · unfold scanStep at h
    split at h
    · first
      | (injection h with h; subst h; exact hq)
      | exact absurd h (by simp)
    split at h
    · first
      | (injection h with h; subst h; exact ite_emit_Q hq)
      | exact absurd h (by simp)
    split at h
    · first
      | (injection h with h; subst h; exact ite_emit_Q hq)
      | exact absurd h (by simp)
    split at h
    · split at h
      · first
        | (injection h with h; subst h; exact hq)
        | exact absurd h (by simp)
      · first
        | (injection h with h; subst h; exact emitTextDelta_Q hq)
        | exact absurd h (by simp)
    split at h
    · first
      | (injection h with h; subst h; exact hq)
      | exact absurd h (by simp)
    · first
      | (injection h with h; subst h; exact emitTextDelta_Q hq)
      | exact absurd h (by simp)

theorem scanLoop_Q {cfg : ClaudeStreamConfig} :
    ∀ (st : ClaudeStreamState),
      (st.emittedContentBlock = true → ∃ i t, ClaudeEvent.blockStartText i t ∈ st.events) →
      ((scanLoop cfg st).emittedContentBlock = true →
        ∃ i t, ClaudeEvent.blockStartText i t ∈ (scanLoop cfg st).events) := by
  suffices H : ∀ n (st : ClaudeStreamState), st.textBuf.length ≤ n →
      (st.emittedContentBlock = true → ∃ i t, ClaudeEvent.blockStartText i t ∈ st.events) →
      ((scanLoop cfg st).emittedContentBlock = true →
        ∃ i t, ClaudeEvent.blockStartText i t ∈ (scanLoop cfg st).events) by
    intro st
    exact H st.textBuf.length st le_rfl
  intro n
  induction n with
  | zero =>
    intro st hlen hq
    cases hstep : scanStep cfg st with
    | inl stop =>
      rw [scanLoop_of_inl hstep]
      exact scanStep_Q hq stop (Or.inl hstep)
    | inr next =>
      have := (scanStep_inr_textBuf hstep).2
      omega
  | succ n ih =>
    intro st hlen hq
    cases hstep : scanStep cfg st with
    | inl stop =>
      rw [scanLoop_of_inl hstep]
      exact scanStep_Q hq stop (Or.inl hstep)
    | inr next =>
      rw [scanLoop_of_inr hstep]
      have hlen2 := (scanStep_inr_textBuf hstep).2
      exact ih next (by omega) (scanStep_Q hq next (Or.inr hstep))

theorem emitTextSafe_Q {cfg : ClaudeStreamConfig} {d : GoStr} {st : ClaudeStreamState}
    (hq : st.emittedContentBlock = true →
      ∃ i t, ClaudeEvent.blockStartText i t ∈ st.events) :
    (emitTextSafe cfg d st).emittedContentBlock = true →
      ∃ i t, ClaudeEvent.blockStartText i t ∈ (emitTextSafe cfg d st).events := by
  unfold emitTextSafe
  split
  · exact hq
  · exact scanLoop_Q _ hq

theorem processIncrements_Q {cfg : ClaudeStreamConfig} :
    ∀ (incs : List GoStr) (st : ClaudeStreamState),
      (st.emittedContentBlock = true → ∃ i t, ClaudeEvent.blockStartText i t ∈ st.events) →
      ((processIncrements cfg incs st).emittedContentBlock = true →
        ∃ i t, ClaudeEvent.blockStartText i t ∈ (processIncrements cfg incs st).events) := by
  intro incs
  induction incs with
  | nil => intro st hq; exact hq
  | cons d rest ih =>
    intro st hq
    rw [processIncrements_cons]
    split
    · exact emitTextSafe_Q hq
    · exact ih _ (emitTextSafe_Q hq)

theorem flushAllTextBuf_Q {cfg : ClaudeStreamConfig} {st : ClaudeStreamState}
    (hq : st.emittedContentBlock = true →
      ∃ i t, ClaudeEvent.blockStartText i t ∈ st.events) :
    (flushAllTextBuf cfg st).emittedContentBlock = true →
      ∃ i t, ClaudeEvent.blockStartText i t ∈ (flushAllTextBuf cfg st).events := by
  unfold flushAllTextBuf
  split
  · exact hq
  split
  · exact ite_emit_Q hq
  · exact emitTextDelta_Q hq

theorem closeTextBlock_Q {st : ClaudeStreamState}
    (hq : st.emittedContentBlock = true →
      ∃ i t, ClaudeEvent.blockStartText i t ∈ st.events) :
    (closeTextBlock st).emittedContentBlock = true →
      ∃ i t, ClaudeEvent.blockStartText i t ∈ (closeTextBlock st).events := by
  unfold closeTextBlock
  split
  · intro hf
    obtain ⟨i, t, hm⟩ := hq hf
    exact ⟨i, t, List.mem_append_left _ hm⟩
  · exact hq

/-- Finalization always leaves a `content_block_start` (text) event in the
stream: the one recorded by `emittedContentBlock`, or the explicit empty
fallback pair. -/
theorem finalize_has_block {cfg : ClaudeStreamConfig} {st : ClaudeStreamState}
    (hq : st.emittedContentBlock = true →
      ∃ i t, ClaudeEvent.blockStartText i t ∈ st.events) :
    ∃ i t, ClaudeEvent.blockStartText i t ∈ (finalizeMessagesStream cfg st).events := by
  unfold finalizeMessagesStream
  dsimp only
  by_cases hcb : (closeTextBlock (flushAllTextBuf cfg st)).emittedContentBlock
  · rw [if_pos hcb]
    obtain ⟨i, t, hm⟩ := closeTextBlock_Q (flushAllTextBuf_Q hq) hcb
    exact ⟨i, t, List.mem_append_left _ hm⟩
  · rw [if_neg hcb]
    refine ⟨(closeTextBlock (flushAllTextBuf cfg st)).blockIndex, [], ?_⟩
    simp

/-! Finalization of the stream. -/

theorem flushAll_noop {cfg : ClaudeStreamConfig} {st : ClaudeStreamState}
    (h : st.textBuf = []) : flushAllTextBuf cfg st = { st with textBuf := [] } := by
  unfold flushAllTextBuf
  rw [if_pos (by simp [h])]

/-- When the receive loop ends with an empty pending buffer, no tool use and a
stop reason already set, finalization only adds textless events and keeps the
stop reason, stop sequence and cancellation flag. -/
theorem finalize_fields {cfg : ClaudeStreamConfig} {st : ClaudeStreamState}
    (hbuf : st.textBuf = []) (htool : st.hasToolUse = false)
    (hreason : ¬ st.stopReason = []) :
    emittedTextOf (finalizeMessagesStream cfg st).events = emittedTextOf st.events ∧
    (finalizeMessagesStream cfg st).stopReason = st.stopReason ∧
    (finalizeMessagesStream cfg st).stopSequence = st.stopSequence ∧
    (finalizeMessagesStream cfg st).cancelled = st.cancelled := by
  have hre : st.stopReason.isEmpty = false := by
    simpa [List.isEmpty_iff] using hreason
  unfold finalizeMessagesStream
  rw [flushAll_noop hbuf]
  dsimp only
  by_cases hcb : (closeTextBlock { st with textBuf := [] }).emittedContentBlock
  · rw [if_pos hcb]
    refine ⟨?_, ?_, ?_, ?_⟩ <;>
      simp [htool, hre, deltaTextOf]
  · rw [if_neg hcb]
    refine ⟨?_, ?_, ?_, ?_⟩ <;>
      simp [htool, hre, deltaTextOf]

theorem processIncrements_all_nil {cfg : ClaudeStreamConfig} :
    ∀ {incs : List GoStr} {st : ClaudeStreamState},
      (∀ d ∈ incs, d = []) → processIncrements cfg incs st = st := by
  intro incs
  induction incs with
  | nil => intro st _; rfl
  | cons d rest ih =>
    intro st hall
    rw [processIncrements_cons, hall d (List.mem_cons_self _ _), emitTextSafe_nil]
    split
    · rfl
    · exact ih fun q hq => hall q (List.mem_cons_of_mem _ hq)

/-- C1 (amended): with a single configured non-empty stop sequence and no
output budget, the Stream Translator emits exactly the text preceding the
first occurrence of that stop sequence in the concatenated increment text,
discards everything from the match onward, records `stop_sequence` as the
terminal reason and cancels the upstream read. (With several configured stop
sequences the scanner matches buffer-by-buffer, which can differ from the
global first occurrence; see the counterexample.) -/
theorem claude_stream_stop_sequence_truncates
    (seq : GoStr) (mt : Int) (incs : List GoStr) (idx : Nat)
    (hne : seq ≠ []) (hmt : mt ≤ 0)
    (hidx : goIndex incs.flatten seq = some idx) :
    emittedTextOf (runMessagesStream ⟨[seq], mt⟩ incs).events = incs.flatten.take idx ∧
    (runMessagesStream ⟨[seq], mt⟩ incs).stopReason = goStr "stop_sequence" ∧
    (runMessagesStream ⟨[seq], mt⟩ incs).stopSequence = some seq ∧
    (runMessagesStream ⟨[seq], mt⟩ incs).cancelled = true := by
  have hb0 : (⟨[seq], mt⟩ : ClaudeStreamConfig).maxChars = 0 := maxChars_of_nonpos hmt
  have hinitE : emittedTextOf initClaudeStreamState.events = [] := by
    simp [initClaudeStreamState, deltaTextOf]
  have hTidx : goIndex (emittedTextOf initClaudeStreamState.events
      ++ initClaudeStreamState.textBuf ++ incs.flatten) seq = some idx := by
    rw [hinitE]
    simpa [initClaudeStreamState] using hidx
  have hP : goIndex (emittedTextOf initClaudeStreamState.events
      ++ initClaudeStreamState.textBuf) seq = none := by
    rw [hinitE]
    show goIndex [] seq = none
    simp [goIndex, hne]
  obtain ⟨p1, p2, p3, p4, p5, p6, p7⟩ :=
    processIncrements_stop_hit rfl hne hb0 incs initClaudeStreamState idx rfl hP
      (Or.inl hinitE) hTidx
  have htool : (processIncrements ⟨[seq], mt⟩ incs initClaudeStreamState).hasToolUse = false := p7
  have hreason : ¬ (processIncrements ⟨[seq], mt⟩ incs initClaudeStreamState).stopReason = [] := by
    rw [p4]
    decide
  obtain ⟨f1, f2, f3, f4⟩ :=
    @finalize_fields (⟨[seq], mt⟩ : ClaudeStreamConfig)
      (processIncrements ⟨[seq], mt⟩ incs initClaudeStreamState) p2 htool hreason
  refine ⟨?_, ?_, ?_, ?_⟩
  · show emittedTextOf (finalizeMessagesStream ⟨[seq], mt⟩
      (processIncrements ⟨[seq], mt⟩ incs initClaudeStreamState)).events = _
    rw [f1, p1, hinitE]
    simp [initClaudeStreamState]
  · show (finalizeMessagesStream ⟨[seq], mt⟩
      (processIncrements ⟨[seq], mt⟩ incs initClaudeStreamState)).stopReason = _
    rw [f2, p4]
  · show (finalizeMessagesStream ⟨[seq], mt⟩
      (processIncrements ⟨[seq], mt⟩ incs initClaudeStreamState)).stopSequence = _
    rw [f3, p5]
  · show (finalizeMessagesStream ⟨[seq], mt⟩
      (processIncrements ⟨[seq], mt⟩ incs initClaudeStreamState)).cancelled = _
    rw [f4, p6]

/-- C1 witness: stop sequences `["STOP"]`, increments `"abcST"` then
`"OPxyz"`: exactly `"abc"` is emitted, `stop_sequence="STOP"` is recorded and
upstream is cancelled, so `"xyz"` is never emitted. -/
theorem claude_stream_stop_sequence_truncates_witness :
    goIndex ([goStr "abcST", goStr "OPxyz"] : List GoStr).flatten (goStr "STOP") = some 3 ∧
    emittedTextOf (runMessagesStream ⟨[goStr "STOP"], 0⟩ [goStr "abcST", goStr "OPxyz"]).events
      = goStr "abc" ∧
    (runMessagesStream ⟨[goStr "STOP"], 0⟩ [goStr "abcST", goStr "OPxyz"]).stopReason
      = goStr "stop_sequence" ∧
    (runMessagesStream ⟨[goStr "STOP"], 0⟩ [goStr "abcST", goStr "OPxyz"]).stopSequence
      = some (goStr "STOP") ∧
    (runMessagesStream ⟨[goStr "STOP"], 0⟩ [goStr "abcST", goStr "OPxyz"]).cancelled = true := by
  have h := claude_stream_stop_sequence_truncates (goStr "STOP") 0
    [goStr "abcST", goStr "OPxyz"] 3 (by decide) (by decide) (by decide)
  refine ⟨by decide, ?_, h.2.1, h.2.2.1, h.2.2.2⟩
  rw [h.1]
  decide

/-- C1 counterexample: with stop sequences `["ABC", "B"]` and increments
`"AB"` then `"C"`, the first occurrence of a stop sequence in the
concatenated text `"ABC"` is `"ABC"` at index 0, so the claim as stated
requires emitting the empty prefix; the translator instead matches `"B"`
inside its first scan buffer, emits `"A"` and records `stop_sequence="B"`. -/
theorem claude_stream_first_occurrence_counterexample :
    findFirstClaudeStopSequence (goStr "ABC") [goStr "ABC", goStr "B"]
      = some (0, goStr "ABC") ∧
    ([goStr "AB", goStr "C"] : List GoStr).flatten = goStr "ABC" ∧
    emittedTextOf (runMessagesStream ⟨[goStr "ABC", goStr "B"], 0⟩
      [goStr "AB", goStr "C"]).events = goStr "A" ∧
    (runMessagesStream ⟨[goStr "ABC", goStr "B"], 0⟩ [goStr "AB", goStr "C"]).stopSequence
      = some (goStr "B") ∧
    emittedTextOf (runMessagesStream ⟨[goStr "ABC", goStr "B"], 0⟩
      [goStr "AB", goStr "C"]).events ≠ (goStr "ABC").take 0 := by
  decide

/-- C2: for every positive `max_tokens` (budget = `max_tokens * 4` bytes),
with no stop sequences configured, and every stream whose total byte length
exceeds the budget, the Stream Translator emits exactly the first budget
bytes, records `max_tokens` as the terminal reason and cancels upstream. -/
theorem claude_stream_max_tokens_truncates
    (mt : Int) (incs : List GoStr)
    (hmt : 0 < mt) (hlen : mt * 4 < (incs.flatten.length : Int)) :
    emittedTextOf (runMessagesStream ⟨[], mt⟩ incs).events
      = incs.flatten.take (mt * 4).toNat ∧
    (emittedTextOf (runMessagesStream ⟨[], mt⟩ incs).events).length = (mt * 4).toNat ∧
    (runMessagesStream ⟨[], mt⟩ incs).stopReason = goStr "max_tokens" ∧
    (runMessagesStream ⟨[], mt⟩ incs).stopSequence = none ∧
    (runMessagesStream ⟨[], mt⟩ incs).cancelled = true := by
  have hmc : (⟨[], mt⟩ : ClaudeStreamConfig).maxChars = mt * 4 := by
    unfold ClaudeStreamConfig.maxChars
    rw [if_pos hmt]
  have hinitE : emittedTextOf initClaudeStreamState.events = [] := by
    simp [initClaudeStreamState, deltaTextOf]
  obtain ⟨p1, p2, p3, p4, p5, p6, p7⟩ :=
    processIncrements_budget_exceeded rfl (by rw [hmc]; omega) incs initClaudeStreamState
      rfl rfl (by rw [hmc]; show (0 : Int) ≤ mt * 4; omega)
      (by rw [hmc]; show mt * 4 < (0 : Int) + incs.flatten.length; omega)
  have htool : (processIncrements ⟨[], mt⟩ incs initClaudeStreamState).hasToolUse = false := p7
  have hreason : ¬ (processIncrements ⟨[], mt⟩ incs initClaudeStreamState).stopReason = [] := by
    rw [p4]
    decide
  obtain ⟨f1, f2, f3, f4⟩ :=
    @finalize_fields (⟨[], mt⟩ : ClaudeStreamConfig)
      (processIncrements ⟨[], mt⟩ incs initClaudeStreamState) p2 htool hreason
  have hemain : emittedTextOf (runMessagesStream ⟨[], mt⟩ incs).events
      = incs.flatten.take (mt * 4).toNat := by
    show emittedTextOf (finalizeMessagesStream ⟨[], mt⟩
      (processIncrements ⟨[], mt⟩ incs initClaudeStreamState)).events = _
    rw [f1, p1, hinitE, hmc]
    show [] ++ incs.flatten.take ((mt * 4 - ((0 : Nat) : Int)).toNat) = _
    simp
  refine ⟨hemain, ?_, ?_, ?_, ?_⟩
  · rw [hemain, List.length_take]
    have : (mt * 4).toNat ≤ incs.flatten.length := by omega
    omega
  · show (finalizeMessagesStream ⟨[], mt⟩
      (processIncrements ⟨[], mt⟩ incs initClaudeStreamState)).stopReason = _
    rw [f2, p4]
  · show (finalizeMessagesStream ⟨[], mt⟩
      (processIncrements ⟨[], mt⟩ incs initClaudeStreamState)).stopSequence = _
    rw [f3, p5]
  · show (finalizeMessagesStream ⟨[], mt⟩
      (processIncrements ⟨[], mt⟩ incs initClaudeStreamState)).cancelled = _
    rw [f4, p6]

/-- C2 witness: `max_tokens = 2` (budget 8 bytes), input `"0123456789"`:
exactly `"01234567"` is emitted with terminal reason `max_tokens`. -/
theorem claude_stream_max_tokens_truncates_witness :
    emittedTextOf (runMessagesStream ⟨[], 2⟩ [goStr "0123456789"]).events = goStr "01234567" ∧
    (runMessagesStream ⟨[], 2⟩ [goStr "0123456789"]).stopReason = goStr "max_tokens" ∧
    (runMessagesStream ⟨[], 2⟩ [goStr "0123456789"]).stopSequence = none ∧
    (runMessagesStream ⟨[], 2⟩ [goStr "0123456789"]).cancelled = true := by
  have h := claude_stream_max_tokens_truncates 2 [goStr "0123456789"] (by decide) (by decide)
  refine ⟨?_, h.2.2.1, h.2.2.2.1, h.2.2.2.2⟩
  rw [h.1]
  decide

/-- C8: after the Stop Scanner processes any sequence of text increments,
the pending buffer is empty when the maximum configured stop-sequence length
is at most one, and strictly shorter than that maximum otherwise. -/
theorem stop_scanner_buffer_invariant (cfg : ClaudeStreamConfig) (incs : List GoStr) :
    (cfg.maxStopLen ≤ 1 → (processIncrements cfg incs initClaudeStreamState).textBuf = []) ∧
    (1 < cfg.maxStopLen →
      (processIncrements cfg incs initClaudeStreamState).textBuf.length < cfg.maxStopLen) := by
  suffices H : ∀ (l : List GoStr) (st : ClaudeStreamState),
      (st.textBuf = [] ∨ (1 < cfg.maxStopLen ∧ st.textBuf.length ≤ cfg.maxStopLen - 1)) →
      ((processIncrements cfg l st).textBuf = [] ∨
        (1 < cfg.maxStopLen ∧
          (processIncrements cfg l st).textBuf.length ≤ cfg.maxStopLen - 1)) by
    have h := H incs initClaudeStreamState (Or.inl rfl)
    constructor
    · intro hms
      rcases h with h | ⟨hms2, -⟩
      · exact h
      · omega
    · intro hms
      rcases h with h | ⟨-, hl⟩
      · rw [h]
        simpa using by omega
      · omega
  intro l
  induction l with
  | nil => intro st h; exact h
  | cons d rest ih =>
    intro st h
    rw [processIncrements_cons]
    by_cases hnt : st.stopTriggered = true
    · rw [emitTextSafe_stopped hnt, if_pos hnt]
      exact h
    · have hnt' : st.stopTriggered = false := by simpa using hnt
      by_cases hd : d = []
      · subst hd
        rw [emitTextSafe_nil, if_neg (by simp [hnt'])]
        exact ih st h
      · rw [emitTextSafe_eq hd hnt']
        have hpost := @scanLoop_post cfg ({ st with textBuf := st.textBuf ++ d }) hnt'
        split
        · exact hpost
        · exact ih _ hpost

/-- C8 witness: stop sequence `"STOP"` (maxStopLen 4), one increment
`"abcST"`: after the scan pass the buffer holds fewer than 4 characters. -/
theorem stop_scanner_buffer_invariant_witness :
    1 < (⟨[goStr "STOP"], 0⟩ : ClaudeStreamConfig).maxStopLen ∧
    (processIncrements ⟨[goStr "STOP"], 0⟩ [goStr "abcST"] initClaudeStreamState).textBuf.length
      < (⟨[goStr "STOP"], 0⟩ : ClaudeStreamConfig).maxStopLen := by
  have h := stop_scanner_buffer_invariant ⟨[goStr "STOP"], 0⟩ [goStr "abcST"]
  exact ⟨by decide, h.2 (by decide)⟩

/-- C9: every streamed protocol-B response contains at least one content
block; in particular, when the upstream stream yields no text (and the
tool-call queue stays empty), an empty text `content_block_start` /
`content_block_stop` pair is written before the terminal
`message_delta` / `message_stop` events. -/
theorem claude_stream_emits_content_block (cfg : ClaudeStreamConfig) (incs : List GoStr) :
    (∃ i t, ClaudeEvent.blockStartText i t ∈ (runMessagesStream cfg incs).events) ∧
    ((∀ d ∈ incs, d = []) →
      (runMessagesStream cfg incs).events
        = [ClaudeEvent.messageStart, ClaudeEvent.blockStartText 0 [],
           ClaudeEvent.blockStop 0,
           ClaudeEvent.messageDelta (goStr "end_turn") none 1, ClaudeEvent.messageStop]) := by
  constructor
  · unfold runMessagesStream
    apply finalize_has_block
    apply processIncrements_Q
    intro hf
    exact absurd hf (by simp [initClaudeStreamState])
  · intro hall
    unfold runMessagesStream
    rw [processIncrements_all_nil hall]
    simp [finalizeMessagesStream, flushAllTextBuf, closeTextBlock, initClaudeStreamState,
      estimateClaudeTokensFromChars]

/-- C9 witness: an entirely empty stream still produces the five-event
sequence with the empty text block. -/
theorem claude_stream_emits_content_block_witness :
    (runMessagesStream ⟨[], 0⟩ []).events
      = [ClaudeEvent.messageStart, ClaudeEvent.blockStartText 0 [],
         ClaudeEvent.blockStop 0,
         ClaudeEvent.messageDelta (goStr "end_turn") none 1, ClaudeEvent.messageStop] :=
  (claude_stream_emits_content_block ⟨[], 0⟩ []).2 (by simp)

example :
    emittedTextOf (runMessagesStream ⟨[goStr "STOP"], 0⟩ [goStr "abcST", goStr "OPxyz"]).events
      = goStr "abc" := by decide

example :
    (runMessagesStream ⟨[goStr "STOP"], 0⟩ [goStr "abcST", goStr "OPxyz"]).stopSequence
      = some (goStr "STOP") := by decide

example :
    emittedTextOf (runMessagesStream ⟨[], 2⟩ [goStr "0123456789"]).events
      = goStr "01234567" := by decide

example :
    (runMessagesStream ⟨[], 2⟩ [goStr "0123456789"]).stopReason = goStr "max_tokens" := by
  decide

/-! The backend SSE event interpreter: terminal events never duplicate
already-streamed content. -/

/-- C4: once a text delta has been observed (`hasDelta` is set), handling
any of the four terminal `done`/`completed` event types appends nothing to
the content accumulator and forwards no delta downstream: snapshot-derived
text is only used when no delta was ever observed. -/
theorem terminal_events_do_not_duplicate_content
    (raw : List (GoStr × Json)) (st : BackendSSEState)
    (hdelta : st.hasDelta = true)
    (hterm : getString raw (goStr "type") = goStr "response.output_text.done" ∨
             getString raw (goStr "type") = goStr "response.content_part.done" ∨
             getString raw (goStr "type") = goStr "response.output_item.done" ∨
             getString raw (goStr "type") = goStr "response.completed") :
    (handleBackendEvent raw st).1.fullContent = st.fullContent ∧
    (handleBackendEvent raw st).2.1 = [] := by
  unfold handleBackendEvent
  rcases hterm with h | h | h | h <;> rw [h]
  · rw [if_neg (by decide), if_pos (by decide), if_pos hdelta]
    exact ⟨rfl, rfl⟩
  · rw [if_neg (by decide), if_neg (by decide), if_neg (by decide), if_pos (by decide),
      if_pos hdelta]
    exact ⟨rfl, rfl⟩
  · rw [if_neg (by decide), if_neg (by decide), if_neg (by decide), if_neg (by decide),
      if_pos (by decide), if_pos hdelta]
    exact ⟨rfl, rfl⟩
  · rw [if_neg (by decide), if_neg (by decide), if_neg (by decide), if_neg (by decide),
      if_neg (by decide), if_pos (by decide), if_pos hdelta]
    exact ⟨rfl, rfl⟩

/-- C4 witness: a `response.completed` event carrying a full snapshot of
the already-streamed text leaves the accumulator unchanged and emits no
delta when `hasDelta` is set. -/
theorem terminal_events_do_not_duplicate_content_witness :
    (handleBackendEvent
        [(goStr "type", Json.str (goStr "response.completed")),
         (goStr "response", Json.obj
           [(goStr "output", Json.arr
             [Json.obj [(goStr "content", Json.arr
               [Json.obj [(goStr "type", Json.str (goStr "output_text")),
                          (goStr "text", Json.str (goStr "hello"))]])]])])]
        ⟨goStr "hello", true, ⟨[], []⟩⟩).1.fullContent = goStr "hello" ∧
    (handleBackendEvent
        [(goStr "type", Json.str (goStr "response.completed")),
         (goStr "response", Json.obj
           [(goStr "output", Json.arr
             [Json.obj [(goStr "content", Json.arr
               [Json.obj [(goStr "type", Json.str (goStr "output_text")),
                          (goStr "text", Json.str (goStr "hello"))]])]])])]
        ⟨goStr "hello", true, ⟨[], []⟩⟩).2.1 = [] :=
  terminal_events_do_not_duplicate_content _ _ rfl (by decide)

/-! Helper lemmas about the association-list map operations and the
function-call-arguments events. -/

theorem assocGet_set_self {β : Type} (m : List (GoStr × β)) (k : GoStr) (v : β) :
    assocGet (assocSet m k v) k = some v := by
  induction m with
  | nil => simp [assocSet, assocGet]
  | cons kv rest ih =>
    by_cases h : kv.1 = k
    · simp [assocSet, assocGet, h]
    · simp [assocSet, assocGet, h, ih]

theorem jlookup_nil (k : GoStr) : jlookup [] k = none := rfl

theorem jlookup_cons_eq (k : GoStr) (v : Json) (rest : List (GoStr × Json)) :
    jlookup ((k, v) :: rest) k = some v := by simp [jlookup]

theorem jlookup_cons_ne (kk : GoStr) (v : Json) (rest : List (GoStr × Json))
    (k : GoStr) (h : ¬kk = k) : jlookup ((kk, v) :: rest) k = jlookup rest k := by
  simp [jlookup, h]

theorem getString_eq_of_str {m : List (GoStr × Json)} {k s : GoStr}
    (h : jlookup m k = some (Json.str s)) : getString m k = s := by
  simp [getString, h]

theorem getString_eq_nil_of_none {m : List (GoStr × Json)} {k : GoStr}
    (h : jlookup m k = none) : getString m k = [] := by
  simp [getString, h]

theorem applyDelta_event (itemID frag : GoStr) (fc : functionCallState)
    (hid : goTrimSpace itemID = itemID) (hne : itemID ≠ []) :
    applyFunctionCallArgumentsDelta (functionCallDeltaEvent itemID frag) fc =
      if frag.isEmpty then fc
      else { fc with args := assocSet fc.args itemID (assocGetD fc.args itemID ++ frag) } := by
  have hemp : itemID.isEmpty = false := by
    cases itemID with
    | nil => exact absurd rfl hne
    | cons c rest => rfl
  have hitem : getString (functionCallDeltaEvent itemID frag) (goStr "item_id") = itemID :=
    getString_eq_of_str (by
      rw [functionCallDeltaEvent, jlookup_cons_ne _ _ _ _ (by decide), jlookup_cons_eq])
  have hdelta : jlookup (functionCallDeltaEvent itemID frag) (goStr "delta")
      = some (Json.str frag) := by
    rw [functionCallDeltaEvent, jlookup_cons_ne _ _ _ _ (by decide),
      jlookup_cons_ne _ _ _ _ (by decide), jlookup_cons_eq]
  simp only [applyFunctionCallArgumentsDelta, hitem, hid, hemp, Bool.false_eq_true,
    if_false, hdelta]

theorem applyDelta_fold (itemID : GoStr) (hid : goTrimSpace itemID = itemID)
    (hne : itemID ≠ []) (frags : List GoStr) :
    ∀ fc : functionCallState,
      (frags.foldl (fun fc frag =>
          applyFunctionCallArgumentsDelta (functionCallDeltaEvent itemID frag) fc) fc).itemMeta
        = fc.itemMeta ∧
      assocGetD (frags.foldl (fun fc frag =>
          applyFunctionCallArgumentsDelta (functionCallDeltaEvent itemID frag) fc) fc).args
          itemID
        = assocGetD fc.args itemID ++ frags.flatten := by
  induction frags with
  | nil => intro fc; simp
  | cons frag rest ih =>
    intro fc
    rw [List.foldl_cons, applyDelta_event itemID frag fc hid hne]
    by_cases hf : frag.isEmpty
    · rw [if_pos hf]
      have hfrag : frag = [] := List.isEmpty_iff.mp hf
      obtain ⟨hm, ha⟩ := ih fc
      exact ⟨hm, by rw [ha, hfrag]; simp⟩
    · rw [if_neg hf]
      obtain ⟨hm, ha⟩ :=
        ih { fc with args := assocSet fc.args itemID (assocGetD fc.args itemID ++ frag) }
      refine ⟨hm, ?_⟩
      rw [ha]
      have hset : assocGetD
          (assocSet fc.args itemID (assocGetD fc.args itemID ++ frag)) itemID
          = assocGetD fc.args itemID ++ frag := by
        simp [assocGetD, assocGet_set_self]
      simp only [hset]
      simp [List.append_assoc]

theorem done_event_calls (itemID : GoStr) (fc : functionCallState)
    (hid : goTrimSpace itemID = itemID) (hne : itemID ≠ []) :
    (extractToolCalls (goStr "response.function_call_arguments.done")
        (functionCallDoneEvent itemID) fc).1 =
      match assocGet fc.itemMeta itemID with
      | none => []
      | some meta =>
        if goTrimSpace meta.Name = [] then []
        else [{ ID := if goTrimSpace meta.CallID = [] then itemID
                      else goTrimSpace meta.CallID,
                Name := goTrimSpace meta.Name,
                Arguments := goTrimSpace (assocGetD fc.args itemID),
                Status := goStr "completed" }] := by
  have hemp : itemID.isEmpty = false := by
    cases itemID with
    | nil => exact absurd rfl hne
    | cons c rest => rfl
  have hitem : getString (functionCallDoneEvent itemID) (goStr "item_id") = itemID :=
    getString_eq_of_str (by
      rw [functionCallDoneEvent, jlookup_cons_ne _ _ _ _ (by decide), jlookup_cons_eq])
  have hargsf : getString (functionCallDoneEvent itemID) (goStr "arguments") = [] :=
    getString_eq_nil_of_none (by
      rw [functionCallDoneEvent, jlookup_cons_ne _ _ _ _ (by decide),
        jlookup_cons_ne _ _ _ _ (by decide), jlookup_nil])
  unfold extractToolCalls
  rw [if_neg (by decide), if_neg (by decide), if_neg (by decide), if_pos (by decide)]
  unfold toolCallFromFunctionCallArgumentsDone
  simp only [hitem, hid, hemp, Bool.false_eq_true, if_false, hargsf]
  have htrimnil : goTrimSpace ([] : GoStr) = [] := rfl
  simp only [htrimnil, List.isEmpty_nil, if_true]
  by_cases hargs : (goTrimSpace (assocGetD fc.args itemID)).isEmpty
  · have hargs' : goTrimSpace (assocGetD fc.args itemID) = [] := List.isEmpty_iff.mp hargs
    simp only [hargs', List.isEmpty_nil, Bool.not_true, Bool.false_eq_true, if_false]
    cases hmeta : assocGet fc.itemMeta itemID with
    | none => simp
    | some meta =>
      simp only
      by_cases hname : goTrimSpace meta.Name = []
      · rw [if_pos (by simp [hname]), if_pos hname]
      · rw [if_neg (by simp [hname]), if_neg hname]
        simp [hargs', List.isEmpty_iff]
  · have hargs' : (goTrimSpace (assocGetD fc.args itemID)).isEmpty = false := by
      simpa using hargs
    simp only [hargs', Bool.not_false, if_true]
    cases hmeta : assocGet fc.itemMeta itemID with
    | none => simp
    | some meta =>
      simp only
      by_cases hname : goTrimSpace meta.Name = []
      · rw [if_pos (by simp [hname]), if_pos hname]
      · rw [if_neg (by simp [hname]), if_neg hname]
        simp [List.isEmpty_iff]

/-- C3 (amended): argument fragments arriving via
`response.function_call_arguments.delta` events are appended in order to
the item's buffer; a subsequent `response.function_call_arguments.done`
event with no explicit arguments field yields exactly one tool-call
record whose arguments are the whitespace-TRIMMED concatenation of the
fragments (`strings.TrimSpace` is applied to the buffer), and yields no
record at all when no name was previously recorded for that item id. -/
theorem function_call_fragments_merge
    (itemID : GoStr) (frags : List GoStr) (fc0 fc1 : functionCallState)
    (hid : goTrimSpace itemID = itemID) (hne : itemID ≠ [])
    (hbuf : assocGet fc0.args itemID = none)
    (hfold : fc1 = frags.foldl (fun fc frag =>
        applyFunctionCallArgumentsDelta (functionCallDeltaEvent itemID frag) fc) fc0) :
    assocGetD fc1.args itemID = frags.flatten ∧
    (assocGet fc0.itemMeta itemID = none →
      (extractToolCalls (goStr "response.function_call_arguments.done")
          (functionCallDoneEvent itemID) fc1).1 = []) ∧
    (∀ meta, assocGet fc0.itemMeta itemID = some meta →
      goTrimSpace meta.Name ≠ [] →
      (extractToolCalls (goStr "response.function_call_arguments.done")
          (functionCallDoneEvent itemID) fc1).1 =
        [{ ID := if goTrimSpace meta.CallID = [] then itemID
                 else goTrimSpace meta.CallID,
           Name := goTrimSpace meta.Name,
           Arguments := goTrimSpace frags.flatten,
           Status := goStr "completed" }]) := by
  obtain ⟨hm, ha⟩ := applyDelta_fold itemID hid hne frags fc0
  rw [← hfold] at hm ha
  have hbufD : assocGetD fc0.args itemID = [] := by simp [assocGetD, hbuf]
  rw [hbufD, List.nil_append] at ha
  refine ⟨ha, ?_, ?_⟩
  · intro hnone
    rw [done_event_calls itemID fc1 hid hne, hm, hnone]
  · intro meta hsome hname
    rw [done_event_calls itemID fc1 hid hne, hm, hsome]
    simp only [hname, if_false, ha]

/-- C3 witness: two clean fragments for item `item_1` (with metadata
recorded for it) merge into the single completed call with the
concatenated JSON arguments. -/
theorem function_call_fragments_merge_witness :
    (extractToolCalls (goStr "response.function_call_arguments.done")
        (functionCallDoneEvent (goStr "item_1"))
        ([goStr "\x7b\"a\":1,", goStr "\"b\":2\x7d"].foldl (fun fc frag =>
            applyFunctionCallArgumentsDelta
              (functionCallDeltaEvent (goStr "item_1") frag) fc)
          ⟨[(goStr "item_1", ⟨goStr "call_1", goStr "lookup"⟩)], []⟩)).1 =
      [{ ID := goStr "call_1", Name := goStr "lookup",
         Arguments := goStr "\x7b\"a\":1,\"b\":2\x7d",
         Status := goStr "completed" }] := by
  obtain ⟨-, -, h⟩ := function_call_fragments_merge (goStr "item_1")
    [goStr "\x7b\"a\":1,", goStr "\"b\":2\x7d"]
    ⟨[(goStr "item_1", ⟨goStr "call_1", goStr "lookup"⟩)], []⟩ _
    rfl (by decide) rfl rfl
  rw [h ⟨goStr "call_1", goStr "lookup"⟩ rfl (by decide)]
  decide

/-- C3 counterexample to the unamended claim: with fragments
`"\x7ba:1,"` and `"b:2\x7d "` (note the trailing space in the second
fragment), the finalized arguments are the trimmed concatenation, not the
raw concatenation of the fragments. -/
theorem function_call_raw_concat_counterexample :
    (extractToolCalls (goStr "response.function_call_arguments.done")
        (functionCallDoneEvent (goStr "item_1"))
        ([goStr "\x7b\"a\":1,", goStr "\"b\":2\x7d "].foldl (fun fc frag =>
            applyFunctionCallArgumentsDelta
              (functionCallDeltaEvent (goStr "item_1") frag) fc)
          ⟨[(goStr "item_1", ⟨goStr "call_1", goStr "lookup"⟩)], []⟩)).1.map
        ToolCall.Arguments ≠
      [[goStr "\x7b\"a\":1,", goStr "\"b\":2\x7d "].flatten] := by decide

/-! The bounded tool-call notification queue. -/

/-- C6 (amended): the nonblocking send used by both tool-call handlers
never blocks the reader: when the 16-slot channel has room the call is
enqueued at the back, and when it is full the NEW call is dropped and the
queue is left unchanged (the oldest pending notification is kept, contrary
to the original claim). -/
theorem tool_call_queue_never_blocks (queue : List ToolCall) (call : ToolCall) :
    (queue.length < toolCallChanCapacity →
      offerToolCall toolCallChanCapacity queue call = queue ++ [call]) ∧
    (toolCallChanCapacity ≤ queue.length →
      offerToolCall toolCallChanCapacity queue call = queue) := by
  constructor
  · intro h
    simp [offerToolCall, h]
  · intro h
    simp [offerToolCall, Nat.not_lt.mpr h]

/-- C6 witness: an empty queue accepts the call; a full queue of sixteen
pending calls is returned unchanged. -/
theorem tool_call_queue_never_blocks_witness :
    offerToolCall toolCallChanCapacity []
        { ID := goStr "new", Name := goStr "new", Arguments := [], Status := [] } =
      [{ ID := goStr "new", Name := goStr "new", Arguments := [], Status := [] }] ∧
    offerToolCall toolCallChanCapacity
        (List.replicate 16
          { ID := goStr "old", Name := goStr "old", Arguments := [], Status := [] })
        { ID := goStr "new", Name := goStr "new", Arguments := [], Status := [] } =
      List.replicate 16
        { ID := goStr "old", Name := goStr "old", Arguments := [], Status := [] } :=
  ⟨(tool_call_queue_never_blocks [] _).1 (by decide),
   (tool_call_queue_never_blocks (List.replicate 16 _) _).2 (by decide)⟩

/-- C6 counterexample to the oldest-dropped claim: on a full queue the
new call is dropped — the result is not the queue with its oldest entry
evicted and the new call appended, and the new call is absent. -/
theorem tool_call_queue_drop_policy_counterexample :
    offerToolCall toolCallChanCapacity
        (List.replicate 16
          ({ ID := goStr "old", Name := goStr "old", Arguments := [], Status := [] }
            : ToolCall))
        { ID := goStr "new", Name := goStr "new", Arguments := [], Status := [] } ≠
      (List.replicate 16
          ({ ID := goStr "old", Name := goStr "old", Arguments := [], Status := [] }
            : ToolCall)).tail ++
        [{ ID := goStr "new", Name := goStr "new", Arguments := [], Status := [] }] ∧
    ({ ID := goStr "new", Name := goStr "new", Arguments := [], Status := [] }
        : ToolCall) ∉
      offerToolCall toolCallChanCapacity
        (List.replicate 16
          ({ ID := goStr "old", Name := goStr "old", Arguments := [], Status := [] }
            : ToolCall))
        { ID := goStr "new", Name := goStr "new", Arguments := [], Status := [] } := by
  decide

/-! The chunk translator's per-call last-emitted-arguments cache. -/

theorem toolCallArgs_emit_inv (call : ToolCall) (lastArgs : List (GoStr × GoStr))
    (r : GoStr) (last' : List (GoStr × GoStr))
    (hargs : goTrimSpace call.Arguments ≠ [])
    (heq : toolCallArgumentsForStream (some call) lastArgs = (some r, last')) :
    r = normalizeJSONArgumentString (goTrimSpace call.Arguments) ∧
    last' = assocSet lastArgs (goTrimSpace call.ID) r := by
  have hargs' : (goTrimSpace call.Arguments).isEmpty = false := by
    simpa [List.isEmpty_iff] using hargs
  simp only [toolCallArgumentsForStream, hargs', Bool.false_eq_true, if_false] at heq
  repeat' split at heq
  all_goals rw [Prod.mk.injEq] at heq
  all_goals obtain ⟨h1, h2⟩ := heq
  all_goals
    first
      | exact Option.noConfusion h1
      | (have hxr := Option.some.inj h1
         subst h2
         rw [hxr]
         exact ⟨rfl, rfl⟩)

theorem toolCallArgs_cached (call : ToolCall) (lastArgs : List (GoStr × GoStr))
    (hargs : goTrimSpace call.Arguments ≠ [])
    (hcache : assocGet lastArgs (goTrimSpace call.ID)
      = some (normalizeJSONArgumentString (goTrimSpace call.Arguments))) :
    (toolCallArgumentsForStream (some call) lastArgs).1 = none := by
  have hargs' : (goTrimSpace call.Arguments).isEmpty = false := by
    simpa [List.isEmpty_iff] using hargs
  simp only [toolCallArgumentsForStream, hargs', Bool.false_eq_true, if_false]
  repeat' split
  all_goals first | rfl | simp_all

/-- C7: two tool-call notifications with the same (trimmed) call id whose
non-empty argument strings canonicalize to the same JSON are emitted at
most once: if the first notification emits a chunk, the second is
suppressed by the per-call last-emitted-arguments cache, because
arguments are JSON round-tripped (decoded and re-encoded with sorted
object keys) before the comparison. -/
theorem tool_call_arguments_canonical_dedup
    (call1 call2 : ToolCall) (lastArgs : List (GoStr × GoStr))
    (hID : goTrimSpace call2.ID = goTrimSpace call1.ID)
    (h1 : goTrimSpace call1.Arguments ≠ [])
    (h2 : goTrimSpace call2.Arguments ≠ [])
    (hnorm : normalizeJSONArgumentString (goTrimSpace call2.Arguments) =
             normalizeJSONArgumentString (goTrimSpace call1.Arguments)) :
    (toolCallArgumentsForStream (some call1) lastArgs).1 = none ∨
    (toolCallArgumentsForStream (some call2)
        (toolCallArgumentsForStream (some call1) lastArgs).2).1 = none := by
  cases hr : (toolCallArgumentsForStream (some call1) lastArgs).1 with
  | none => exact Or.inl rfl
  | some r =>
    right
    have hpair : toolCallArgumentsForStream (some call1) lastArgs =
        (some r, (toolCallArgumentsForStream (some call1) lastArgs).2) := by
      rw [← hr]
    obtain ⟨hrn, hlast⟩ := toolCallArgs_emit_inv call1 lastArgs r _ h1 hpair
    refine toolCallArgs_cached call2 _ h2 ?_
    rw [hID, hlast, hnorm, ← hrn]
    exact assocGet_set_self lastArgs (goTrimSpace call1.ID) r

/-- C7 witness: two Task-free notifications for `call_1` whose argument
objects differ only in key order (`b` before `a`, then `a` before `b`)
produce at most one chunk: the first emission caches the canonical form,
and the second is suppressed. -/
theorem tool_call_arguments_canonical_dedup_witness :
    (toolCallArgumentsForStream
        (some { ID := goStr "call_1", Name := goStr "mytool",
                Arguments := goStr "\x7b\"b\":2,\"a\":1\x7d", Status := [] }) []).1
      = none ∨
    (toolCallArgumentsForStream
        (some { ID := goStr "call_1", Name := goStr "mytool",
                Arguments := goStr "\x7b\"a\":1,\"b\":2\x7d", Status := [] })
        (toolCallArgumentsForStream
          (some { ID := goStr "call_1", Name := goStr "mytool",
                  Arguments := goStr "\x7b\"b\":2,\"a\":1\x7d", Status := [] }) []).2).1
      = none :=
  tool_call_arguments_canonical_dedup
    { ID := goStr "call_1", Name := goStr "mytool",
      Arguments := goStr "\x7b\"b\":2,\"a\":1\x7d", Status := [] }
    { ID := goStr "call_1", Name := goStr "mytool",
      Arguments := goStr "\x7b\"a\":1,\"b\":2\x7d", Status := [] }
    [] rfl (by decide) (by decide) (by decide)

/-! The retry orchestrator: each repair branch fires at most once. -/

theorem doStreamLoopF_succ (oracle : Nat → BackendResponse) (fuel n : Nat)
    (payload : requestPayload) (rCI rRE : Bool) :
    doStreamLoopF oracle (fuel + 1) n payload rCI rRE =
      match doStreamStep oracle n payload rCI rRE with
      | .inl result => (result, n + 1)
      | .inr (payload1, rCI1, rRE1) =>
        doStreamLoopF oracle fuel (n + 1) payload1 rCI1 rRE1 := rfl

theorem doStreamStep_inr_measure (oracle : Nat → BackendResponse) (n : Nat)
    (payload : requestPayload) (rCI rRE : Bool) (p1 : requestPayload) (a b : Bool)
    (h : doStreamStep oracle n payload rCI rRE = .inr (p1, a, b)) :
    retryFlagMeasure a b < retryFlagMeasure rCI rRE := by
  unfold doStreamStep at h
  cases horacle : oracle n with
  | success content => rw [horacle] at h; exact Sum.noConfusion h
  | otherError message => rw [horacle] at h; exact Sum.noConfusion h
  | statusError status message =>
    rw [horacle] at h
    dsimp only at h
    split at h
    · rename_i hcond
      obtain ⟨hci, -, -, -⟩ := hcond
      rw [Sum.inr.injEq, Prod.mk.injEq, Prod.mk.injEq] at h
      obtain ⟨-, ha, hb⟩ := h
      subst hci; subst ha; subst hb
      cases rRE <;> simp [retryFlagMeasure]
    · split at h
      · split at h
        · rename_i reasoning hcond
          obtain ⟨hre, -, -, -⟩ := hcond
          rw [Sum.inr.injEq, Prod.mk.injEq, Prod.mk.injEq] at h
          obtain ⟨-, ha, hb⟩ := h
          subst hre; subst ha; subst hb
          cases rCI <;> simp [retryFlagMeasure]
        · exact Sum.noConfusion h
      · exact Sum.noConfusion h

theorem doStreamLoopF_bounds (oracle : Nat → BackendResponse) :
    ∀ (fuel n : Nat) (payload : requestPayload) (rCI rRE : Bool),
      retryFlagMeasure rCI rRE < fuel →
      n + 1 ≤ (doStreamLoopF oracle fuel n payload rCI rRE).2 ∧
      (doStreamLoopF oracle fuel n payload rCI rRE).2 ≤
        n + 1 + retryFlagMeasure rCI rRE := by
  intro fuel
  induction fuel with
  | zero => intro n payload rCI rRE h; omega
  | succ fuel ih =>
    intro n payload rCI rRE h
    rw [doStreamLoopF_succ]
    cases hstep : doStreamStep oracle n payload rCI rRE with
    | inl result =>
      dsimp only
      exact ⟨Nat.le_refl _, by omega⟩
    | inr next =>
      obtain ⟨p1, a, b⟩ := next
      have hlt := doStreamStep_inr_measure oracle n payload rCI rRE p1 a b hstep
      have hb := ih (n + 1) p1 a b (by omega)
      dsimp only
      exact ⟨by omega, by omega⟩

/-- C10: the retry loop of `doStreamRequest` always terminates after at
least one and at most three upstream requests: each of the two repair
branches is guarded by a boolean flag that it sets, so each can fire at
most once before a result or an error is returned. -/
theorem retry_loop_terminates (oracle : Nat → BackendResponse)
    (payload : requestPayload) :
    1 ≤ (doStreamRequest oracle payload).2 ∧ (doStreamRequest oracle payload).2 ≤ 3 := by
  have h := doStreamLoopF_bounds oracle 3 0 payload false false (by decide)
  have hm : retryFlagMeasure false false = 2 := rfl
  unfold doStreamRequest
  rw [hm] at h
  omega

/-- C5: the retry orchestrator repairs each of its two failure classes at
most once per logical request.  Code-interpreter class: a classified 400
rejection whose repair removes a tool definition, followed by a success,
issues exactly two upstream requests, and a second classified 400 after
the repair (with the reasoning-effort branch not applicable) is surfaced
as a hard error without another retry.  A non-400 status, an unclassified
400 and a non-status error are each surfaced immediately after a single
request.  Reasoning-effort class: a classified 400 rejection of the
current effort with an available fallback (with the code-interpreter
branch not applicable), followed by a success of the downgraded request,
issues exactly two upstream requests, and a second classified
reasoning-effort 400 after that repair is surfaced as a hard error
without another retry. -/
theorem retry_orchestrator_single_repair (payload : requestPayload) :
    (∀ (oracle : Nat → BackendResponse) (msg c : GoStr),
      oracle 0 = .statusError 400 msg →
      IsUnsupportedToolTypeError msg ToolTypeCodeInterpreter = true →
      (RemoveToolTypeDefinitions payload.Tools ToolTypeCodeInterpreter).2 = true →
      oracle 1 = .success c →
      doStreamRequest oracle payload = (.ok c, 2)) ∧
    (∀ (oracle : Nat → BackendResponse) (msg msg2 : GoStr),
      oracle 0 = .statusError 400 msg →
      IsUnsupportedToolTypeError msg ToolTypeCodeInterpreter = true →
      (RemoveToolTypeDefinitions payload.Tools ToolTypeCodeInterpreter).2 = true →
      oracle 1 = .statusError 400 msg2 →
      (∀ r, payload.Reasoning = some r →
        (FallbackReasoningEffort (goTrimSpace r.Effort)).2 = false ∨
        IsUnsupportedReasoningEffortError msg2 (goTrimSpace r.Effort) = false) →
      doStreamRequest oracle payload = (.error (.statusError 400 msg2), 2)) ∧
    (∀ (oracle : Nat → BackendResponse) (status : Int) (msg : GoStr),
      oracle 0 = .statusError status msg → status ≠ 400 →
      doStreamRequest oracle payload = (.error (.statusError status msg), 1)) ∧
    (∀ (oracle : Nat → BackendResponse) (msg : GoStr),
      oracle 0 = .statusError 400 msg →
      IsUnsupportedToolTypeError msg ToolTypeCodeInterpreter = false →
      (∀ r, payload.Reasoning = some r →
        (FallbackReasoningEffort (goTrimSpace r.Effort)).2 = false ∨
        IsUnsupportedReasoningEffortError msg (goTrimSpace r.Effort) = false) →
      doStreamRequest oracle payload = (.error (.statusError 400 msg), 1)) ∧
    (∀ (oracle : Nat → BackendResponse) (msg : GoStr),
      oracle 0 = .otherError msg →
      doStreamRequest oracle payload = (.error (.otherError msg), 1)) ∧
    (∀ (oracle : Nat → BackendResponse) (msg c : GoStr) (r : requestReasoning),
      payload.Reasoning = some r →
      oracle 0 = .statusError 400 msg →
      (IsUnsupportedToolTypeError msg ToolTypeCodeInterpreter = false ∨
        (RemoveToolTypeDefinitions payload.Tools ToolTypeCodeInterpreter).2 = false) →
      (FallbackReasoningEffort (goTrimSpace r.Effort)).2 = true →
      IsUnsupportedReasoningEffortError msg (goTrimSpace r.Effort) = true →
      oracle 1 = .success c →
      doStreamRequest oracle payload = (.ok c, 2)) ∧
    (∀ (oracle : Nat → BackendResponse) (msg msg2 : GoStr) (r : requestReasoning),
      payload.Reasoning = some r →
      oracle 0 = .statusError 400 msg →
      (IsUnsupportedToolTypeError msg ToolTypeCodeInterpreter = false ∨
        (RemoveToolTypeDefinitions payload.Tools ToolTypeCodeInterpreter).2 = false) →
      (FallbackReasoningEffort (goTrimSpace r.Effort)).2 = true →
      IsUnsupportedReasoningEffortError msg (goTrimSpace r.Effort) = true →
      oracle 1 = .statusError 400 msg2 →
      (IsUnsupportedToolTypeError msg2 ToolTypeCodeInterpreter = false ∨
        (RemoveToolTypeDefinitions payload.Tools ToolTypeCodeInterpreter).2 = false) →
      IsUnsupportedReasoningEffortError msg2
        (goTrimSpace (FallbackReasoningEffort (goTrimSpace r.Effort)).1) = true →
      doStreamRequest oracle payload = (.error (.statusError 400 msg2), 2)) := by
  refine ⟨?_, ?_, ?_, ?_, ?_, ?_, ?_⟩
  · intro oracle msg c h0 hcl hrm h1
    have hstep1 : doStreamStep oracle 0 payload false false =
        .inr ({ payload with
                  Tools := (RemoveToolTypeDefinitions payload.Tools
                    ToolTypeCodeInterpreter).1 }, true, false) := by
      unfold doStreamStep
      rw [h0]
      dsimp only
      rw [if_pos ⟨rfl, rfl, hcl, hrm⟩]
    have hstep2 : doStreamStep oracle 1
        { payload with
            Tools := (RemoveToolTypeDefinitions payload.Tools
              ToolTypeCodeInterpreter).1 } true false = .inl (.ok c) := by
      unfold doStreamStep
      rw [h1]
    unfold doStreamRequest
    rw [show (3 : Nat) = 2 + 1 from rfl, doStreamLoopF_succ, hstep1]
    dsimp only
    rw [show (2 : Nat) = 1 + 1 from rfl, doStreamLoopF_succ, hstep2]
  · intro oracle msg msg2 h0 hcl hrm h1 hre
    have hstep1 : doStreamStep oracle 0 payload false false =
        .inr ({ payload with
                  Tools := (RemoveToolTypeDefinitions payload.Tools
                    ToolTypeCodeInterpreter).1 }, true, false) := by
      unfold doStreamStep
      rw [h0]
      dsimp only
      rw [if_pos ⟨rfl, rfl, hcl, hrm⟩]
    have hstep2 : doStreamStep oracle 1
        { payload with
            Tools := (RemoveToolTypeDefinitions payload.Tools
              ToolTypeCodeInterpreter).1 } true false =
        .inl (.error (.statusError 400 msg2)) := by
      unfold doStreamStep
      rw [h1]
      dsimp only
      rw [if_neg (by rintro ⟨hci, -, -, -⟩; exact Bool.noConfusion hci)]
      cases hR : payload.Reasoning with
      | none => rfl
      | some r =>
        dsimp only
        rw [if_neg ?_]
        rintro ⟨-, -, hfb, hcl2⟩
        rcases hre r hR with hf | hc
        · rw [hfb] at hf; exact Bool.noConfusion hf
        · rw [hcl2] at hc; exact Bool.noConfusion hc
    unfold doStreamRequest
    rw [show (3 : Nat) = 2 + 1 from rfl, doStreamLoopF_succ, hstep1]
    dsimp only
    rw [show (2 : Nat) = 1 + 1 from rfl, doStreamLoopF_succ, hstep2]
  · intro oracle status msg h0 hstat
    have hstep1 : doStreamStep oracle 0 payload false false =
        .inl (.error (.statusError status msg)) := by
      unfold doStreamStep
      rw [h0]
      dsimp only
      rw [if_neg (by rintro ⟨-, hs, -, -⟩; exact hstat hs)]
      cases hR : payload.Reasoning with
      | none => rfl
      | some r =>
        dsimp only
        rw [if_neg (by rintro ⟨-, hs, -, -⟩; exact hstat hs)]
    unfold doStreamRequest
    rw [show (3 : Nat) = 2 + 1 from rfl, doStreamLoopF_succ, hstep1]
  · intro oracle msg h0 hcl hre
    have hstep1 : doStreamStep oracle 0 payload false false =
        .inl (.error (.statusError 400 msg)) := by
      unfold doStreamStep
      rw [h0]
      dsimp only
      rw [if_neg (by rintro ⟨-, -, hc, -⟩; rw [hcl] at hc; exact Bool.noConfusion hc)]
      cases hR : payload.Reasoning with
      | none => rfl
      | some r =>
        dsimp only
        rw [if_neg ?_]
        rintro ⟨-, -, hfb, hcl2⟩
        rcases hre r hR with hf | hc
        · rw [hfb] at hf; exact Bool.noConfusion hf
        · rw [hcl2] at hc; exact Bool.noConfusion hc
    unfold doStreamRequest
    rw [show (3 : Nat) = 2 + 1 from rfl, doStreamLoopF_succ, hstep1]
  · intro oracle msg h0
    have hstep1 : doStreamStep oracle 0 payload false false =
        .inl (.error (.otherError msg)) := by
      unfold doStreamStep
      rw [h0]
    unfold doStreamRequest
    rw [show (3 : Nat) = 2 + 1 from rfl, doStreamLoopF_succ, hstep1]
  · intro oracle msg c r hR h0 hci hfb hcls h1
    have hstep1 : doStreamStep oracle 0 payload false false =
        .inr ({ payload with
                  Reasoning := some
                    ⟨(FallbackReasoningEffort (goTrimSpace r.Effort)).1⟩ },
              false, true) := by
      unfold doStreamStep
      rw [h0]
      dsimp only
      rw [if_neg (by
        rintro ⟨-, -, hc, hm⟩
        rcases hci with h | h
        · rw [h] at hc; exact Bool.noConfusion hc
        · rw [h] at hm; exact Bool.noConfusion hm)]
      rw [hR]
      dsimp only
      rw [if_pos ⟨rfl, rfl, hfb, hcls⟩]
    have hstep2 : doStreamStep oracle 1
        { payload with
            Reasoning := some
              ⟨(FallbackReasoningEffort (goTrimSpace r.Effort)).1⟩ } false true =
        .inl (.ok c) := by
      unfold doStreamStep
      rw [h1]
    unfold doStreamRequest
    rw [show (3 : Nat) = 2 + 1 from rfl, doStreamLoopF_succ, hstep1]
    dsimp only
    rw [show (2 : Nat) = 1 + 1 from rfl, doStreamLoopF_succ, hstep2]
  · intro oracle msg msg2 r hR h0 hci hfb hcls h1 hci2 _hcls2
    have hstep1 : doStreamStep oracle 0 payload false false =
        .inr ({ payload with
                  Reasoning := some
                    ⟨(FallbackReasoningEffort (goTrimSpace r.Effort)).1⟩ },
              false, true) := by
      unfold doStreamStep
      rw [h0]
      dsimp only
      rw [if_neg (by
        rintro ⟨-, -, hc, hm⟩
        rcases hci with h | h
        · rw [h] at hc; exact Bool.noConfusion hc
        · rw [h] at hm; exact Bool.noConfusion hm)]
      rw [hR]
      dsimp only
      rw [if_pos ⟨rfl, rfl, hfb, hcls⟩]
    have hstep2 : doStreamStep oracle 1
        { payload with
            Reasoning := some
              ⟨(FallbackReasoningEffort (goTrimSpace r.Effort)).1⟩ } false true =
        .inl (.error (.statusError 400 msg2)) := by
      unfold doStreamStep
      rw [h1]
      dsimp only
      rw [if_neg (by
        rintro ⟨-, -, hc, hm⟩
        rcases hci2 with h | h
        · rw [h] at hc; exact Bool.noConfusion hc
        · rw [h] at hm; exact Bool.noConfusion hm)]
      rw [if_neg (by rintro ⟨hre, -, -, -⟩; exact Bool.noConfusion hre)]
    unfold doStreamRequest
    rw [show (3 : Nat) = 2 + 1 from rfl, doStreamLoopF_succ, hstep1]
    dsimp only
    rw [show (2 : Nat) = 1 + 1 from rfl, doStreamLoopF_succ, hstep2]

/-- C5 witness: a classified unsupported-code-interpreter 400 followed by
a success gives exactly two upstream requests; a classified
reasoning-effort 400 for `xhigh`, repaired by the downgrade to `high` and
followed by a success, also gives exactly two; a plain error is surfaced
after one. -/
theorem retry_orchestrator_single_repair_witness :
    doStreamRequest
        (fun n => if n = 0 then
            .statusError 400 (goStr "unsupported tool type: code_interpreter")
          else .success (goStr "done"))
        { Tools := [{ Type' := goStr "code_interpreter", Name := [],
                      Description := [], Parameters := [], Container := none }],
          Reasoning := none } = (.ok (goStr "done"), 2) ∧
    doStreamRequest
        (fun n => if n = 0 then
            .statusError 400 (goStr "unsupported value for reasoning.effort: xhigh")
          else .success (goStr "done"))
        { Tools := [], Reasoning := some { Effort := goStr "xhigh" } } =
      (.ok (goStr "done"), 2) ∧
    doStreamRequest (fun _ => .otherError (goStr "network down"))
        { Tools := [], Reasoning := none } =
      (.error (.otherError (goStr "network down")), 1) :=
  ⟨(retry_orchestrator_single_repair _).1 _
      (goStr "unsupported tool type: code_interpreter") (goStr "done")
      rfl (by decide) (by decide) rfl,
   (retry_orchestrator_single_repair _).2.2.2.2.2.1 _
      (goStr "unsupported value for reasoning.effort: xhigh") (goStr "done")
      { Effort := goStr "xhigh" } rfl rfl (Or.inl (by decide)) (by decide)
      (by decide) rfl,
   (retry_orchestrator_single_repair _).2.2.2.2.1 _ (goStr "network down") rfl⟩
